import Mathlib

/-!
# Verification of the mongoose-query-builder core

A shallow embedding of `src/query-builder.ts`, `src/operators/search-operators.ts`
and the sort-parsing part of `src/middlewares/query-builder.middleware.ts`,
together with theorems settling the frozen claims about the specification.

JavaScript objects are modelled as insertion-ordered association lists
(`List (String × α)`); JavaScript numbers are modelled as integers.
-/

set_option maxRecDepth 4000

namespace MQB

/-! ## Association-list primitives (JavaScript object operations) -/

/-- `obj[k]` — first binding wins (JS objects have unique keys). -/
def alLookup {α : Type} : List (String × α) → String → Option α
  | [], _ => none
  | p :: rest, k => if p.1 = k then some p.2 else alLookup rest k

/-- `obj[k] = v` — update in place if the key exists, else append (JS insertion order). -/
def alInsert {α : Type} : List (String × α) → String → α → List (String × α)
  | [], k, v => [(k, v)]
  | p :: rest, k, v => if p.1 = k then (k, v) :: rest else p :: alInsert rest k v

/-- `delete obj[k]`. -/
def alDelete {α : Type} (l : List (String × α)) (k : String) : List (String × α) :=
  l.filter (fun p => p.1 ≠ k)

/-- `{...a, ...b}` — spread `b` over `a`, later assignments winning. -/
def jsSpread {α : Type} (a b : List (String × α)) : List (String × α) :=
  b.foldl (fun acc p => alInsert acc p.1 p.2) a

theorem alLookup_alInsert {α : Type} (l : List (String × α)) (k : String) (v : α)
    (k' : String) :
    alLookup (alInsert l k v) k' = if k = k' then some v else alLookup l k' := by
  induction l with
  | nil => by_cases h : k = k' <;> simp [alInsert, alLookup, h]
  | cons p rest ih =>
    by_cases hp : p.1 = k
    · by_cases h : k = k'
      · simp [alInsert, alLookup, hp, h]
      · have hp' : ¬ (p.1 = k') := fun he => h (hp.symm.trans he)
        simp [alInsert, alLookup, hp, h, hp']
    · simp only [alInsert, hp, if_false]
      by_cases h : p.1 = k'
      · have hkk : ¬ (k = k') := fun he => hp (he ▸ h)
        simp [alLookup, h, hkk]
      · simp [alLookup, h, ih]

theorem alLookup_alDelete {α : Type} (l : List (String × α)) (k k' : String) :
    alLookup (alDelete l k) k' = if k = k' then none else alLookup l k' := by
  induction l with
  | nil => simp [alDelete, alLookup]
  | cons p rest ih =>
    by_cases hp : p.1 = k
    · have hd : alDelete (p :: rest) k = alDelete rest k := by
        simp [alDelete, List.filter_cons, hp]
      rw [hd, ih]
      by_cases h : k = k'
      · simp [h]
      · have hp' : ¬ (p.1 = k') := fun he => h (hp.symm.trans he)
        simp [alLookup, hp', h]
    · have : alDelete (p :: rest) k = p :: alDelete rest k := by
        simp [alDelete, List.filter_cons, hp]
      rw [this]
      by_cases h : p.1 = k'
      · have hkk : ¬ (k = k') := fun he => hp (he ▸ h)
        simp [alLookup, h, hkk]
      · simp [alLookup, h, ih]

theorem alLookup_mem {α : Type} {l : List (String × α)} {k : String} {v : α}
    (h : alLookup l k = some v) : (k, v) ∈ l := by
  induction l with
  | nil => simp [alLookup] at h
  | cons p rest ih =>
    by_cases hp : p.1 = k
    · simp only [alLookup, hp, if_true, Option.some.injEq] at h
      apply List.mem_cons.mpr
      left
      obtain ⟨a, b⟩ := p
      simp only at hp h
      rw [hp, h]
    · simp only [alLookup, hp, if_false] at h
      exact List.mem_cons_of_mem _ (ih h)

theorem mem_alInsert_of_ne {α : Type} {l : List (String × α)} {k : String} {v : α}
    (k' : String) (v' : α) (hmem : (k, v) ∈ l) (hne : k ≠ k') :
    (k, v) ∈ alInsert l k' v' := by
  induction l with
  | nil => simp at hmem
  | cons p rest ih =>
    rcases List.mem_cons.mp hmem with h | h
    · by_cases hp : p.1 = k'
      · exfalso
        apply hne
        rw [← h] at hp
        exact hp
      · rw [← h]
        simp only [alInsert]
        rw [← h] at hp
        simp only at hp
        simp [hp]
    · by_cases hp : p.1 = k'
      · simp only [alInsert, hp, if_true]
        exact List.mem_cons_of_mem _ h
      · simp only [alInsert, hp, if_false]
        exact List.mem_cons_of_mem _ (ih h)

theorem alLookup_eq_none_iff {α : Type} (l : List (String × α)) (k : String) :
    alLookup l k = none ↔ k ∉ l.map Prod.fst := by
  induction l with
  | nil => simp [alLookup]
  | cons p rest ih =>
    by_cases hp : p.1 = k
    · simp only [alLookup, hp, if_true]
      constructor
      · intro h
        exact absurd h (by simp)
      · intro h
        exfalso
        apply h
        rw [List.map_cons]
        exact List.mem_cons.mpr (Or.inl hp.symm)
    · simp only [alLookup, hp, if_false, List.map_cons, List.mem_cons, not_or]
      rw [ih]
      constructor
      · intro h
        exact ⟨fun he => hp he.symm, h⟩
      · intro h
        exact h.2

theorem mem_jsSpread_left {α : Type} {a : List (String × α)} {k : String} {v : α}
    (b : List (String × α)) (hmem : (k, v) ∈ a) (hb : alLookup b k = none) :
    (k, v) ∈ jsSpread a b := by
  induction b generalizing a with
  | nil => simpa [jsSpread]
  | cons p rest ih =>
    simp only [alLookup] at hb
    by_cases hp : p.1 = k
    · simp [hp] at hb
    · simp only [hp, if_false] at hb
      have : (k, v) ∈ alInsert a p.1 p.2 :=
        mem_alInsert_of_ne _ _ hmem (fun he => hp (he ▸ rfl))
      simpa [jsSpread] using ih this hb

theorem alLookup_jsSpread {α : Type} (a b : List (String × α)) (k : String)
    (hb : (b.map Prod.fst).Nodup) :
    alLookup (jsSpread a b) k = ((alLookup b k).orElse (fun _ => alLookup a k)) := by
  induction b generalizing a with
  | nil => simp [jsSpread, alLookup, Option.orElse]
  | cons p rest ih =>
    simp only [List.map_cons, List.nodup_cons] at hb
    have step : jsSpread a (p :: rest) = jsSpread (alInsert a p.1 p.2) rest := by
      simp [jsSpread]
    rw [step, ih _ hb.2]
    by_cases hp : p.1 = k
    · have hk : alLookup rest k = none := by
        rw [alLookup_eq_none_iff]
        rw [← hp]
        exact hb.1
      simp [alLookup, hp, hk, alLookup_alInsert, Option.orElse]
    · simp [alLookup, hp, alLookup_alInsert, Option.orElse]

/-! ## JavaScript `String.prototype.split` with a single-character separator -/

/-- Split a character list on a separator character; JS `"".split(c) = [""]`. -/
def splitChars (sep : Char) : List Char → List (List Char)
  | [] => [[]]
  | c :: rest =>
    if c = sep then [] :: splitChars sep rest
    else
      match splitChars sep rest with
      | [] => [[c]]
      | g :: gs => (c :: g) :: gs

theorem splitChars_ne_nil (sep : Char) (l : List Char) : splitChars sep l ≠ [] := by
  cases l with
  | nil => simp [splitChars]
  | cons c rest =>
    by_cases h : c = sep
    · simp [splitChars, h]
    · simp only [splitChars, h, if_false]
      cases splitChars sep rest <;> simp

theorem splitChars_of_not_mem (sep : Char) (l : List Char) (h : sep ∉ l) :
    splitChars sep l = [l] := by
  induction l with
  | nil => simp [splitChars]
  | cons c rest ih =>
    simp only [List.mem_cons, not_or] at h
    have hc : ¬ (c = sep) := fun he => h.1 he.symm
    simp [splitChars, hc, ih h.2]

theorem splitChars_append (sep : Char) (a t : List Char) (ha : sep ∉ a) :
    splitChars sep (a ++ sep :: t) = a :: splitChars sep t := by
  induction a with
  | nil => simp [splitChars]
  | cons c rest ih =>
    simp only [List.mem_cons, not_or] at ha
    have hc : ¬ (c = sep) := fun he => ha.1 he.symm
    have hr := ih ha.2
    simp only [List.cons_append, splitChars, hc, if_false]
    rw [show rest ++ sep :: t = rest.append (sep :: t) from rfl] at hr
    rw [hr]

/-- Join character lists with a separator (inverse of `splitChars` on sep-free parts). -/
def joinChars (sep : Char) : List (List Char) → List Char
  | [] => []
  | [p] => p
  | p :: rest => p ++ sep :: joinChars sep rest

theorem splitChars_joinChars (sep : Char) (parts : List (List Char))
    (hne : parts ≠ []) (hfree : ∀ p ∈ parts, sep ∉ p) :
    splitChars sep (joinChars sep parts) = parts := by
  induction parts with
  | nil => exact absurd rfl hne
  | cons p rest ih =>
    cases rest with
    | nil =>
      simp only [joinChars]
      exact splitChars_of_not_mem sep p (hfree p (by simp))
    | cons q rest' =>
      have h1 : joinChars sep (p :: q :: rest') = p ++ sep :: joinChars sep (q :: rest') := rfl
      rw [h1, splitChars_append sep p _ (hfree p (by simp))]
      congr 1
      exact ih (by simp) (fun x hx => hfree x (List.mem_cons_of_mem _ hx))

/-- JS `s.split(sep)` at the `String` level. -/
def jsSplit (sep : Char) (s : String) : List String :=
  (splitChars sep s.data).map String.mk

/-! ## JavaScript values

Filter values are modelled by a small JS value universe; numbers are modelled
as integers. -/

inductive Value : Type where
  | vStr : String → Value
  | vNum : Int → Value
  | vBool : Bool → Value
  | vNull : Value
  | vArr : List Value → Value

mutual

def valueBEq : Value → Value → Bool
  | .vStr a, .vStr b => a == b
  | .vNum a, .vNum b => a == b
  | .vBool a, .vBool b => a == b
  | .vNull, .vNull => true
  | .vArr a, .vArr b => valueListBEq a b
  | _, _ => false

def valueListBEq : List Value → List Value → Bool
  | [], [] => true
  | x :: xs, y :: ys => valueBEq x y && valueListBEq xs ys
  | _, _ => false

end

mutual

theorem valueBEq_refl : ∀ (a : Value), valueBEq a a = true
  | .vStr _ => by simp [valueBEq]
  | .vNum _ => by simp [valueBEq]
  | .vBool _ => by simp [valueBEq]
  | .vNull => by simp [valueBEq]
  | .vArr l => by simp [valueBEq, valueListBEq_refl l]

theorem valueListBEq_refl : ∀ (l : List Value), valueListBEq l l = true
  | [] => by simp [valueListBEq]
  | x :: xs => by simp [valueListBEq, valueBEq_refl x, valueListBEq_refl xs]

end

mutual

theorem eq_of_valueBEq : ∀ (a b : Value), valueBEq a b = true → a = b
  | .vStr _, .vStr _, h => by simpa [valueBEq] using congrArg Value.vStr (by simpa [valueBEq] using h)
  | .vNum _, .vNum _, h => by simpa [valueBEq] using congrArg Value.vNum (by simpa [valueBEq] using h)
  | .vBool _, .vBool _, h => by simpa [valueBEq] using congrArg Value.vBool (by simpa [valueBEq] using h)
  | .vNull, .vNull, _ => rfl
  | .vArr a, .vArr b, h => congrArg Value.vArr (eq_of_valueListBEq a b (by simpa [valueBEq] using h))
  | .vStr _, .vNum _, h => by simp [valueBEq] at h
  | .vStr _, .vBool _, h => by simp [valueBEq] at h
  | .vStr _, .vNull, h => by simp [valueBEq] at h
  | .vStr _, .vArr _, h => by simp [valueBEq] at h
  | .vNum _, .vStr _, h => by simp [valueBEq] at h
  | .vNum _, .vBool _, h => by simp [valueBEq] at h
  | .vNum _, .vNull, h => by simp [valueBEq] at h
  | .vNum _, .vArr _, h => by simp [valueBEq] at h
  | .vBool _, .vStr _, h => by simp [valueBEq] at h
  | .vBool _, .vNum _, h => by simp [valueBEq] at h
  | .vBool _, .vNull, h => by simp [valueBEq] at h
  | .vBool _, .vArr _, h => by simp [valueBEq] at h
  | .vNull, .vStr _, h => by simp [valueBEq] at h
  | .vNull, .vNum _, h => by simp [valueBEq] at h
  | .vNull, .vBool _, h => by simp [valueBEq] at h
  | .vNull, .vArr _, h => by simp [valueBEq] at h
  | .vArr _, .vStr _, h => by simp [valueBEq] at h
  | .vArr _, .vNum _, h => by simp [valueBEq] at h
  | .vArr _, .vBool _, h => by simp [valueBEq] at h
  | .vArr _, .vNull, h => by simp [valueBEq] at h

theorem eq_of_valueListBEq : ∀ (a b : List Value), valueListBEq a b = true → a = b
  | [], [], _ => rfl
  | [], _ :: _, h => by simp [valueListBEq] at h
  | _ :: _, [], h => by simp [valueListBEq] at h
  | x :: xs, y :: ys, h => by
    have h' := h
    simp only [valueListBEq, Bool.and_eq_true] at h'
    rw [eq_of_valueBEq x y h'.1, eq_of_valueListBEq xs ys h'.2]

end

instance : DecidableEq Value := fun a b =>
  if h : valueBEq a b = true then .isTrue (eq_of_valueBEq a b h)
  else .isFalse (fun he => h (he ▸ valueBEq_refl a))

/-- JS truthiness of a value (`false`, `0`, `""`, `null` are falsy; objects
and arrays are truthy). -/
def truthyValue : Value → Bool
  | .vStr s => !(s = "")
  | .vNum n => !(n = 0)
  | .vBool b => b
  | .vNull => false
  | .vArr _ => true

def Value.isStr : Value → Bool
  | .vStr _ => true
  | _ => false

def Value.isArr : Value → Bool
  | .vArr _ => true
  | _ => false

def isJsSpace (c : Char) : Bool := c = ' ' ∨ c = '\t' ∨ c = '\n' ∨ c = '\r'

/-- JS `s.trim()` (whitespace from both ends), over the character list. -/
def jsTrim (s : String) : String :=
  String.mk (((s.data.dropWhile isJsSpace).reverse.dropWhile isJsSpace).reverse)

/-- Case normalization (`toLowerCase`), over the character list. -/
def jsToLower (s : String) : String := String.mk (s.data.map Char.toLower)

/-- `s.startsWith(p)`. -/
def strStartsWith (s p : String) : Bool := p.data.isPrefixOf s.data

/-- Decimal digits to a natural number; `none` if the list is empty or not all digits. -/
def digitsToNat (l : List Char) : Option Nat :=
  if l = [] then none
  else if l.all Char.isDigit then
    some (l.foldl (fun a c => a * 10 + (c.toNat - 48)) 0)
  else none

/-- JS `Number(string)` restricted to integer literals: whitespace-trimmed,
empty string is `0`, optional sign; `none` stands for `NaN`. -/
def parseJsNum (s : String) : Option Int :=
  match (jsTrim s).data with
  | [] => some 0
  | '-' :: rest => (digitsToNat rest).map (fun n => -(n : Int))
  | '+' :: rest => (digitsToNat rest).map (fun n => (n : Int))
  | l => (digitsToNat l).map (fun n => (n : Int))

/-- JS `Number(v)` on a non-array value. -/
def jsToNumberPrim : Value → Option Int
  | .vStr s => parseJsNum s
  | .vNum n => some n
  | .vBool b => some (if b then 1 else 0)
  | .vNull => some 0
  | .vArr _ => none

/-- JS `Number(v)`; single-element arrays coerce through their element. -/
def jsToNumber : Value → Option Int
  | .vArr [] => some 0
  | .vArr [x] => jsToNumberPrim x
  | .vArr _ => none
  | v => jsToNumberPrim v

/-- JS `String(v)`. -/
def jsToString : Value → String
  | .vStr s => s
  | .vNum n => toString n
  | .vBool b => if b then "true" else "false"
  | .vNull => "null"
  | .vArr l => String.intercalate "," (l.map fun v =>
      match v with
      | .vStr s => s
      | .vNum n => toString n
      | .vBool b => if b then "true" else "false"
      | .vNull => ""
      | .vArr _ => "")

/-! ## `parseFilters` (QueryBuilder.parseFilters, query-builder.ts lines 162-205) -/

/-- One step of the `parseFilters` loop over `Object.entries(filters)`:
`key.split("_")` is destructured as `[field, operator]`, so only the first
two segments matter. -/
def parseFiltersStep (parsed : List (String × Value)) (kv : String × Value) :
    List (String × Value) :=
  if '_' ∈ kv.1.data then
    match ((jsSplit '_' kv.1).get? 1).getD "" with
    | "in" | "nin" | "all" =>
      alInsert parsed kv.1
        (match kv.2 with
         | .vStr s => .vArr ((jsSplit ',' s).map Value.vStr)
         | v => v)
    | "exists" =>
      alInsert parsed kv.1 (.vBool (jsToLower (jsToString kv.2) = "true"))
    | "gt" | "gte" | "lt" | "lte" =>
      alInsert parsed kv.1
        (match jsToNumber kv.2 with
         | some n => .vNum n
         | none => kv.2)
    | "between" =>
      match kv.2 with
      | .vStr s =>
        match (((jsSplit ',' s).map parseJsNum).get? 0).getD none,
              (((jsSplit ',' s).map parseJsNum).get? 1).getD none with
        | some mn, some mx =>
          alInsert
            (alInsert parsed ((jsSplit '_' kv.1).headD "" ++ "_gte") (.vNum mn))
            ((jsSplit '_' kv.1).headD "" ++ "_lte") (.vNum mx)
        | _, _ => parsed
      | _ => parsed
    | "regex" => alInsert parsed kv.1 kv.2
    | _ => alInsert parsed kv.1 kv.2
  else
    alInsert parsed kv.1 kv.2

def parseFilters (filters : List (String × Value)) : List (String × Value) :=
  filters.foldl parseFiltersStep []

/-! ## `parseSorting` (QueryBuilder.parseSorting, lines 207-228)

The TypeScript signature promises `order : "asc" | "desc"` but the values are
only cast, never checked, so order is modelled as a raw string. -/

structure SortEntry where
  field : String
  order : String
deriving DecidableEq

inductive SortInput : Type where
  | str : String → SortInput
  | strList : List String → SortInput
  | records : List SortEntry → SortInput

/-- `const [field, order = "asc"] = item.split(":")`. -/
def parseSortItem (item : String) : SortEntry :=
  let parts := jsSplit ':' item
  ⟨parts.headD "", (parts.get? 1).getD "asc"⟩

def parseSorting : SortInput → List SortEntry
  | .str s => (jsSplit ',' s).map parseSortItem
  | .strList l => l.map parseSortItem
  | .records l => l

/-! ## `parseSelect` and `parseExpand` (lines 230-263) -/

inductive SelectInput : Type where
  | str : String → SelectInput
  | list : List String → SelectInput
  | imap : List (String × Int) → SelectInput

def parseSelect : SelectInput → List String
  | .str s => (jsSplit ',' s).map jsTrim
  | .list l => l
  | .imap m => (m.filter (fun p => p.2 = 1)).map Prod.fst

structure PopulateOpt where
  path : String
  select : Option (List String)
deriving DecidableEq

inductive ExpandInput : Type where
  | str : String → ExpandInput
  | strList : List String → ExpandInput
  | records : List PopulateOpt → ExpandInput

def parseExpand : ExpandInput → List PopulateOpt
  | .str s => (jsSplit ',' s).map (fun p => ⟨jsTrim p, none⟩)
  | .strList l => l.map (fun p => ⟨p, none⟩)
  | .records l => l

/-! ## Compiled filter clauses (`FilterQuery` values)

A compiled clause for a field is either a bare value (equality) or an
operator-keyed object such as `{$gte: 100}`.  The special `$and` key of a
MongoDB filter object is modelled by the separate `andList` component; each
pushed conjunct `{field: clause}` binds a single field. -/

inductive Clause : Type where
  | simple : Value → Clause
  | opmap : List (String × Value) → Clause
deriving DecidableEq

/-- JS truthiness of a clause value (objects are always truthy). -/
def truthyClause : Clause → Bool
  | .simple v => truthyValue v
  | .opmap _ => true

/-- `typeof x !== "object" || x === null`: true for primitives and `null`,
false for arrays and operator objects. -/
def isSimpleJS : Clause → Bool
  | .simple (.vArr _) => false
  | .simple _ => true
  | .opmap _ => false

/-- The own-property list of a clause when it is spread with `{...}`:
operator maps spread to their entries, arrays to index-keyed entries,
primitives to nothing. -/
def clauseToObj : Clause → List (String × Value)
  | .opmap m => m
  | .simple (.vArr l) => (l.enum.map fun p => (toString p.1, p.2))
  | .simple _ => []

/-- A compiled filter: the ordinary field bindings plus the conjuncts the
merge accumulates under the object's `$and` key.  This two-component view of
the source's single object is exact only when no filter set binds a literal
`$and` field key: `mergeJs_simulates` proves the correspondence on such
inputs, and the single-object model `mergeFilterQueriesJs` covers the
colliding case. -/
structure FilterQuery : Type where
  fields : List (String × Clause)
  andList : List (String × Clause)
deriving DecidableEq

def FilterQuery.isEmpty (q : FilterQuery) : Bool :=
  q.fields.isEmpty && q.andList.isEmpty

/-! ## `mapOperatorToMongoOperator` (lines 510-531) -/

def mapOperatorToMongoOperator (operator : String) : Option String :=
  match operator with
  | "eq" => some "$eq"
  | "ne" => some "$ne"
  | "gt" => some "$gt"
  | "gte" => some "$gte"
  | "lt" => some "$lt"
  | "lte" => some "$lte"
  | "in" => some "$in"
  | "nin" => some "$nin"
  | "regex" => some "$regex"
  | "exists" => some "$exists"
  | "type" => some "$type"
  | "mod" => some "$mod"
  | "all" => some "$all"
  | "size" => some "$size"
  | "elemMatch" => some "$elemMatch"
  | "text" => some "$text"
  | _ => none

/-! ## `buildFilterQuery` (lines 468-508) -/

/-- One step of the `buildFilterQuery` loop.  When the existing binding for a
field is a truthy primitive, `query[fieldName] || {}` keeps the primitive and
the subsequent property assignment on it is a no-op. -/
def buildFilterQueryStep (query : List (String × Clause)) (kv : String × Value) :
    List (String × Clause) :=
  if '_' ∈ kv.1.data then
    match mapOperatorToMongoOperator (((jsSplit '_' kv.1).get? 1).getD "") with
    | none => query
    | some mongoOperator =>
      if mongoOperator = "$eq" then
        alInsert query ((jsSplit '_' kv.1).headD "") (.simple kv.2)
      else
        match
          (match alLookup query ((jsSplit '_' kv.1).headD "") with
           | some (.opmap m) => some m
           | some (.simple v) => if truthyValue v then none else some ([] : List (String × Value))
           | none => some ([] : List (String × Value))) with
        | none => query
        | some m =>
          alInsert query ((jsSplit '_' kv.1).headD "")
            (.opmap (alInsert m mongoOperator
              (if (mongoOperator = "$in" ∨ mongoOperator = "$nin") ∧ kv.2.isArr = false then
                match kv.2 with
                | .vStr s => .vArr ((jsSplit ',' s).map Value.vStr)
                | v => .vArr [v]
              else kv.2)))
  else
    alInsert query kv.1 (.simple kv.2)

def buildFilterQuery (filters : List (String × Value)) : FilterQuery :=
  ⟨filters.foldl buildFilterQueryStep [], []⟩

/-! ## `mergeFilterQueries` (lines 420-466) -/

/-- One step of the merge loop over `Object.entries(userFilters)`.  Note the
JS truthiness test `if (mergedQuery[field])`: a falsy default clause is
treated as absent and simply overwritten.  A user field literally named
`$and` is not distinguished here from any other key; in the source it hits
the conjunct accumulator itself — see `mergeStepJs` below for the
single-object step that covers that collision. -/
def mergeStep (m : FilterQuery) (p : String × Clause) : FilterQuery :=
  match alLookup m.fields p.1 with
  | some dc =>
    if truthyClause dc then
      if isSimpleJS dc || isSimpleJS p.2 then
        { fields := alDelete m.fields p.1,
          andList := m.andList ++ [(p.1, dc), (p.1, p.2)] }
      else
        { fields := alInsert m.fields p.1
            (.opmap (jsSpread (clauseToObj dc) (clauseToObj p.2))),
          andList := m.andList }
    else
      { fields := alInsert m.fields p.1 p.2, andList := m.andList }
  | none => { fields := alInsert m.fields p.1 p.2, andList := m.andList }

def mergeFilterQueries (defaultFilters userFilters : FilterQuery) : FilterQuery :=
  userFilters.fields.foldl mergeStep defaultFilters

/-! ### The merge over a single JavaScript object

In the source, `mergedQuery` is one JavaScript object and `$and` is an
ordinary key in it.  The `FilterQuery` representation above keeps the `$and`
key in the separate `andList` component; that representation is exact only
when neither filter set binds a literal `$and` field key (the simulation
theorem `mergeJs_simulates` below), because a user filter key literally named
`$and` collides with the accumulator: the source then pushes onto and deletes
`mergedQuery.$and`, discarding every pushed conjunct.  The following model is
the same source code translated over a single object with untyped JS values,
with `none` standing for the `TypeError` thrown by `push` on a non-array. -/

inductive JsV : Type where
  | vstr : String → JsV
  | vnum : Int → JsV
  | vbool : Bool → JsV
  | vnull : JsV
  | varr : List JsV → JsV
  | vobj : List (String × JsV) → JsV

mutual

def jsvBEq : JsV → JsV → Bool
  | .vstr a, .vstr b => a == b
  | .vnum a, .vnum b => a == b
  | .vbool a, .vbool b => a == b
  | .vnull, .vnull => true
  | .varr a, .varr b => jsvListBEq a b
  | .vobj a, .vobj b => jsvObjBEq a b
  | _, _ => false

def jsvListBEq : List JsV → List JsV → Bool
  | [], [] => true
  | x :: xs, y :: ys => jsvBEq x y && jsvListBEq xs ys
  | _, _ => false

def jsvObjBEq : List (String × JsV) → List (String × JsV) → Bool
  | [], [] => true
  | (k1, v1) :: xs, (k2, v2) :: ys => k1 == k2 && jsvBEq v1 v2 && jsvObjBEq xs ys
  | _, _ => false

end

mutual

theorem jsvBEq_refl : ∀ (a : JsV), jsvBEq a a = true
  | .vstr _ => by simp [jsvBEq]
  | .vnum _ => by simp [jsvBEq]
  | .vbool _ => by simp [jsvBEq]
  | .vnull => by simp [jsvBEq]
  | .varr l => by simp [jsvBEq, jsvListBEq_refl l]
  | .vobj l => by simp [jsvBEq, jsvObjBEq_refl l]

theorem jsvListBEq_refl : ∀ (l : List JsV), jsvListBEq l l = true
  | [] => by simp [jsvListBEq]
  | x :: xs => by simp [jsvListBEq, jsvBEq_refl x, jsvListBEq_refl xs]

theorem jsvObjBEq_refl : ∀ (l : List (String × JsV)), jsvObjBEq l l = true
  | [] => by simp [jsvObjBEq]
  | (k, v) :: xs => by simp [jsvObjBEq, jsvBEq_refl v, jsvObjBEq_refl xs]

end

mutual

theorem eq_of_jsvBEq : ∀ (a b : JsV), jsvBEq a b = true → a = b
  | .vstr _, .vstr _, h => congrArg JsV.vstr (by simpa [jsvBEq] using h)
  | .vnum _, .vnum _, h => congrArg JsV.vnum (by simpa [jsvBEq] using h)
  | .vbool _, .vbool _, h => congrArg JsV.vbool (by simpa [jsvBEq] using h)
  | .vnull, .vnull, _ => rfl
  | .varr a, .varr b, h => congrArg JsV.varr (eq_of_jsvListBEq a b (by simpa [jsvBEq] using h))
  | .vobj a, .vobj b, h => congrArg JsV.vobj (eq_of_jsvObjBEq a b (by simpa [jsvBEq] using h))
  | .vstr _, .vnum _, h => by simp [jsvBEq] at h
  | .vstr _, .vbool _, h => by simp [jsvBEq] at h
  | .vstr _, .vnull, h => by simp [jsvBEq] at h
  | .vstr _, .varr _, h => by simp [jsvBEq] at h
  | .vstr _, .vobj _, h => by simp [jsvBEq] at h
  | .vnum _, .vstr _, h => by simp [jsvBEq] at h
  | .vnum _, .vbool _, h => by simp [jsvBEq] at h
  | .vnum _, .vnull, h => by simp [jsvBEq] at h
  | .vnum _, .varr _, h => by simp [jsvBEq] at h
  | .vnum _, .vobj _, h => by simp [jsvBEq] at h
  | .vbool _, .vstr _, h => by simp [jsvBEq] at h
  | .vbool _, .vnum _, h => by simp [jsvBEq] at h
  | .vbool _, .vnull, h => by simp [jsvBEq] at h
  | .vbool _, .varr _, h => by simp [jsvBEq] at h
  | .vbool _, .vobj _, h => by simp [jsvBEq] at h
  | .vnull, .vstr _, h => by simp [jsvBEq] at h
  | .vnull, .vnum _, h => by simp [jsvBEq] at h
  | .vnull, .vbool _, h => by simp [jsvBEq] at h
  | .vnull, .varr _, h => by simp [jsvBEq] at h
  | .vnull, .vobj _, h => by simp [jsvBEq] at h
  | .varr _, .vstr _, h => by simp [jsvBEq] at h
  | .varr _, .vnum _, h => by simp [jsvBEq] at h
  | .varr _, .vbool _, h => by simp [jsvBEq] at h
  | .varr _, .vnull, h => by simp [jsvBEq] at h
  | .varr _, .vobj _, h => by simp [jsvBEq] at h
  | .vobj _, .vstr _, h => by simp [jsvBEq] at h
  | .vobj _, .vnum _, h => by simp [jsvBEq] at h
  | .vobj _, .vbool _, h => by simp [jsvBEq] at h
  | .vobj _, .vnull, h => by simp [jsvBEq] at h
  | .vobj _, .varr _, h => by simp [jsvBEq] at h

theorem eq_of_jsvListBEq : ∀ (a b : List JsV), jsvListBEq a b = true → a = b
  | [], [], _ => rfl
  | [], _ :: _, h => by simp [jsvListBEq] at h
  | _ :: _, [], h => by simp [jsvListBEq] at h
  | x :: xs, y :: ys, h => by
    have h' := h
    simp only [jsvListBEq, Bool.and_eq_true] at h'
    rw [eq_of_jsvBEq x y h'.1, eq_of_jsvListBEq xs ys h'.2]

theorem eq_of_jsvObjBEq : ∀ (a b : List (String × JsV)), jsvObjBEq a b = true → a = b
  | [], [], _ => rfl
  | [], _ :: _, h => by simp [jsvObjBEq] at h
  | _ :: _, [], h => by simp [jsvObjBEq] at h
  | (k1, v1) :: xs, (k2, v2) :: ys, h => by
    have h' := h
    simp only [jsvObjBEq, Bool.and_eq_true] at h'
    rw [show k1 = k2 from by simpa using h'.1.1,
      eq_of_jsvBEq v1 v2 h'.1.2, eq_of_jsvObjBEq xs ys h'.2]

end

instance : DecidableEq JsV := fun a b =>
  if h : jsvBEq a b = true then .isTrue (eq_of_jsvBEq a b h)
  else .isFalse (fun he => h (he ▸ jsvBEq_refl a))

mutual

def valueToJs : Value → JsV
  | .vStr s => .vstr s
  | .vNum n => .vnum n
  | .vBool b => .vbool b
  | .vNull => .vnull
  | .vArr l => .varr (valueListToJs l)

def valueListToJs : List Value → List JsV
  | [] => []
  | x :: xs => valueToJs x :: valueListToJs xs

end

def clauseToJs : Clause → JsV
  | .simple v => valueToJs v
  | .opmap m => .vobj (m.map (fun p => (p.1, valueToJs p.2)))

/-- A pushed `$and` conjunct `{field: clause}` as a JS object. -/
def conjToJs (p : String × Clause) : JsV := .vobj [(p.1, clauseToJs p.2)]

/-- JS truthiness of an untyped value. -/
def truthyJs : JsV → Bool
  | .vstr s => !(s = "")
  | .vnum n => !(n = 0)
  | .vbool b => b
  | .vnull => false
  | .varr _ => true
  | .vobj _ => true

/-- `typeof x !== "object" || x === null` over untyped values. -/
def isSimpleJsV : JsV → Bool
  | .vstr _ => true
  | .vnum _ => true
  | .vbool _ => true
  | .vnull => true
  | .varr _ => false
  | .vobj _ => false

/-- The own-property list seen by `{...x}`: objects spread to their entries,
arrays to index-keyed entries, primitives to nothing. -/
def jsOwnEntries : JsV → List (String × JsV)
  | .vobj l => l
  | .varr l => l.enum.map (fun p => (toString p.1, p.2))
  | _ => []

/-- One iteration of the `mergeFilterQueries` loop over the single merged
object (source lines 427-463), `$and` being an ordinary key: the simple
branch executes `mergedQuery.$and = mergedQuery.$and || []`, pushes the two
single-field conjuncts, and deletes the conflicting field — deleting the
whole `$and` key when the conflicting field is itself named `$and`.  `none`
models the `TypeError` of `push` on a truthy non-array `$and` value. -/
def mergeStepJs (m : List (String × JsV)) (p : String × JsV) :
    Option (List (String × JsV)) :=
  match alLookup m p.1 with
  | some cur =>
    if truthyJs cur then
      if isSimpleJsV cur || isSimpleJsV p.2 then
        match
          (match alLookup m "$and" with
           | some a => if truthyJs a then a else .varr []
           | none => .varr []) with
        | .varr l =>
          some (alDelete
            (alInsert m "$and" (.varr (l ++ [.vobj [(p.1, cur)], .vobj [(p.1, p.2)]])))
            p.1)
        | _ => none
      else
        some (alInsert m p.1 (.vobj (jsSpread (jsOwnEntries cur) (jsOwnEntries p.2))))
    else
      some (alInsert m p.1 p.2)
  | none => some (alInsert m p.1 p.2)

def mergeFoldJs : List (String × JsV) → List (String × JsV) →
    Option (List (String × JsV))
  | m, [] => some m
  | m, p :: rest =>
    match mergeStepJs m p with
    | some m1 => mergeFoldJs m1 rest
    | none => none

/-- `mergeFilterQueries` over the single merged object. -/
def mergeFilterQueriesJs (defaultFilters userFilters : List (String × JsV)) :
    Option (List (String × JsV)) :=
  mergeFoldJs defaultFilters userFilters

/-- Correspondence between a `FilterQuery` and the single merged object it
stands for: same bindings at every ordinary key, no `$and` field binding,
and the object's `$and` key holding exactly the accumulated conjuncts. -/
def RelFQ (q : FilterQuery) (m : List (String × JsV)) : Prop :=
  (∀ k : String, k ≠ "$and" → alLookup m k = (alLookup q.fields k).map clauseToJs) ∧
  alLookup q.fields "$and" = none ∧
  alLookup m "$and" =
    (match q.andList with
     | [] => none
     | l => some (.varr (l.map conjToJs)))

/-! ### Structure lemmas about the merge -/

theorem mergeStep_of_none (m : FilterQuery) (p : String × Clause)
    (h : alLookup m.fields p.1 = none) :
    mergeStep m p = { fields := alInsert m.fields p.1 p.2, andList := m.andList } := by
  unfold mergeStep
  rw [h]

theorem mergeStep_of_falsy (m : FilterQuery) (p : String × Clause) (dc : Clause)
    (h : alLookup m.fields p.1 = some dc) (ht : truthyClause dc = false) :
    mergeStep m p = { fields := alInsert m.fields p.1 p.2, andList := m.andList } := by
  unfold mergeStep
  rw [h]
  simp [ht]

theorem mergeStep_of_simple (m : FilterQuery) (p : String × Clause) (dc : Clause)
    (h : alLookup m.fields p.1 = some dc) (ht : truthyClause dc = true)
    (hs : (isSimpleJS dc || isSimpleJS p.2) = true) :
    mergeStep m p = { fields := alDelete m.fields p.1,
                      andList := m.andList ++ [(p.1, dc), (p.1, p.2)] } := by
  unfold mergeStep
  rw [h]
  simp only [ht, if_true]
  rw [if_pos (by simpa using hs)]

theorem mergeStep_of_opmaps (m : FilterQuery) (p : String × Clause) (dc : Clause)
    (h : alLookup m.fields p.1 = some dc) (ht : truthyClause dc = true)
    (hs : (isSimpleJS dc || isSimpleJS p.2) = false) :
    mergeStep m p = { fields := alInsert m.fields p.1
                        (.opmap (jsSpread (clauseToObj dc) (clauseToObj p.2))),
                      andList := m.andList } := by
  unfold mergeStep
  rw [h]
  simp only [ht, if_true]
  rw [if_neg (by simp at hs; simp [hs])]

theorem mergeStep_lookup_ne (m : FilterQuery) (p : String × Clause) (k : String)
    (hne : k ≠ p.1) : alLookup (mergeStep m p).fields k = alLookup m.fields k := by
  have hne' : ¬ (p.1 = k) := Ne.symm hne
  cases h : alLookup m.fields p.1 with
  | none =>
    rw [mergeStep_of_none m p h]
    simp [alLookup_alInsert, hne']
  | some dc =>
    by_cases ht : truthyClause dc = true
    · by_cases hs : (isSimpleJS dc || isSimpleJS p.2) = true
      · rw [mergeStep_of_simple m p dc h ht hs]
        simp [alLookup_alDelete, hne']
      · rw [mergeStep_of_opmaps m p dc h ht (by simpa using hs)]
        simp [alLookup_alInsert, hne']
    · rw [mergeStep_of_falsy m p dc h (by simpa using ht)]
      simp [alLookup_alInsert, hne']

theorem mergeStep_andList_mono (m : FilterQuery) (p : String × Clause)
    {x : String × Clause} (hx : x ∈ m.andList) : x ∈ (mergeStep m p).andList := by
  cases h : alLookup m.fields p.1 with
  | none =>
    rw [mergeStep_of_none m p h]
    exact hx
  | some dc =>
    by_cases ht : truthyClause dc = true
    · by_cases hs : (isSimpleJS dc || isSimpleJS p.2) = true
      · rw [mergeStep_of_simple m p dc h ht hs]
        exact List.mem_append.mpr (Or.inl hx)
      · rw [mergeStep_of_opmaps m p dc h ht (by simpa using hs)]
        exact hx
    · rw [mergeStep_of_falsy m p dc h (by simpa using ht)]
      exact hx

theorem mergeFold_lookup_notmem (l : List (String × Clause)) (m : FilterQuery)
    (k : String) (hk : k ∉ l.map Prod.fst) :
    alLookup (l.foldl mergeStep m).fields k = alLookup m.fields k := by
  induction l generalizing m with
  | nil => rfl
  | cons p rest ih =>
    simp only [List.map_cons, List.mem_cons, not_or] at hk
    rw [List.foldl_cons, ih (mergeStep m p) hk.2, mergeStep_lookup_ne m p k hk.1]

theorem mergeFold_andList_mono (l : List (String × Clause)) (m : FilterQuery)
    {x : String × Clause} (hx : x ∈ m.andList) : x ∈ (l.foldl mergeStep m).andList := by
  induction l generalizing m with
  | nil => exact hx
  | cons p rest ih =>
    rw [List.foldl_cons]
    exact ih (mergeStep m p) (mergeStep_andList_mono m p hx)

/-- Behaviour of the merge at a field bound in both filter sets. -/
theorem mergeFold_lookup_mem (l : List (String × Clause)) (m : FilterQuery)
    (f : String) (dc uc : Clause)
    (hnd : (l.map Prod.fst).Nodup) (hmem : (f, uc) ∈ l)
    (hd : alLookup m.fields f = some dc) :
    let out := l.foldl mergeStep m
    (truthyClause dc = true →
      ((isSimpleJS dc || isSimpleJS uc) = true →
        alLookup out.fields f = none ∧ (f, dc) ∈ out.andList ∧ (f, uc) ∈ out.andList) ∧
      ((isSimpleJS dc || isSimpleJS uc) = false →
        alLookup out.fields f =
          some (.opmap (jsSpread (clauseToObj dc) (clauseToObj uc))))) ∧
    (truthyClause dc = false → alLookup out.fields f = some uc) := by
  intro out
  induction l generalizing m with
  | nil => simp at hmem
  | cons p rest ih =>
    simp only [List.map_cons, List.nodup_cons] at hnd
    rcases List.mem_cons.mp hmem with h | h
    · -- the head entry is the user binding for `f`
      have hf : p.1 = f := by rw [← h]
      have hfrest : f ∉ rest.map Prod.fst := by
        rw [← hf]
        exact hnd.1
      have houtfields : ∀ m', alLookup ((rest.foldl mergeStep m').fields) f =
          alLookup m'.fields f := fun m' => mergeFold_lookup_notmem rest m' f hfrest
      have hstep : mergeStep m p = mergeStep m (f, uc) := by rw [← h]
      constructor
      · intro htruthy
        constructor
        · intro hsimple
          have hstepval : mergeStep m (f, uc) =
              { fields := alDelete m.fields f,
                andList := m.andList ++ [(f, dc), (f, uc)] } :=
            mergeStep_of_simple m (f, uc) dc hd htruthy hsimple
          constructor
          · show alLookup ((rest.foldl mergeStep (mergeStep m p)).fields) f = none
            rw [houtfields, hstep, hstepval]
            simp [alLookup_alDelete]
          · constructor
            · show (f, dc) ∈ (rest.foldl mergeStep (mergeStep m p)).andList
              apply mergeFold_andList_mono
              rw [hstep, hstepval]
              simp
            · show (f, uc) ∈ (rest.foldl mergeStep (mergeStep m p)).andList
              apply mergeFold_andList_mono
              rw [hstep, hstepval]
              simp
        · intro hsimple
          have hstepval : mergeStep m (f, uc) =
              { fields := alInsert m.fields f
                  (.opmap (jsSpread (clauseToObj dc) (clauseToObj uc))),
                andList := m.andList } :=
            mergeStep_of_opmaps m (f, uc) dc hd htruthy hsimple
          show alLookup ((rest.foldl mergeStep (mergeStep m p)).fields) f = _
          rw [houtfields, hstep, hstepval]
          simp [alLookup_alInsert]
      · intro htruthy
        have hstepval : mergeStep m (f, uc) =
            { fields := alInsert m.fields f uc, andList := m.andList } :=
          mergeStep_of_falsy m (f, uc) dc hd htruthy
        show alLookup ((rest.foldl mergeStep (mergeStep m p)).fields) f = some uc
        rw [houtfields, hstep, hstepval]
        simp [alLookup_alInsert]
    · -- the user binding for `f` is further down the list
      have hne : f ≠ p.1 := by
        intro he
        apply hnd.1
        rw [he] at h
        exact List.mem_map.mpr ⟨(p.1, uc), h, rfl⟩
      have hd' : alLookup (mergeStep m p).fields f = some dc := by
        rw [mergeStep_lookup_ne m p f hne, hd]
      exact ih (mergeStep m p) hnd.2 h hd'

/-! ### The two-component merge simulates the single-object merge

On filter sets that do not bind a literal `$and` key, `mergeFilterQueries`
computes exactly what the source's single-object loop computes: the same
binding at every ordinary key, and the accumulated conjuncts as the object's
`$and` key. -/

theorem alLookup_map_snd {α β : Type} (f : α → β) (l : List (String × α)) (k : String) :
    alLookup (l.map (fun p => (p.1, f p.2))) k = (alLookup l k).map f := by
  induction l with
  | nil => rfl
  | cons p rest ih =>
    by_cases hp : p.1 = k <;> simp [alLookup, hp, ih]

theorem alInsert_map_snd {α β : Type} (f : α → β) (l : List (String × α))
    (k : String) (v : α) :
    alInsert (l.map (fun p => (p.1, f p.2))) k (f v) =
      (alInsert l k v).map (fun p => (p.1, f p.2)) := by
  induction l with
  | nil => rfl
  | cons p rest ih =>
    by_cases hp : p.1 = k <;> simp [alInsert, hp, ih]

theorem jsSpread_map_snd {α β : Type} (f : α → β) (a b : List (String × α)) :
    jsSpread (a.map (fun p => (p.1, f p.2))) (b.map (fun p => (p.1, f p.2))) =
      (jsSpread a b).map (fun p => (p.1, f p.2)) := by
  induction b generalizing a with
  | nil => rfl
  | cons p rest ih =>
    show jsSpread (alInsert (a.map _) p.1 (f p.2)) (rest.map _) = _
    rw [alInsert_map_snd]
    exact ih (alInsert a p.1 p.2)

theorem valueListToJs_eq_map (l : List Value) : valueListToJs l = l.map valueToJs := by
  induction l with
  | nil => rfl
  | cons x xs ih => simp [valueListToJs, ih]

theorem truthyJs_clauseToJs (c : Clause) : truthyJs (clauseToJs c) = truthyClause c := by
  cases c with
  | simple v => cases v <;> rfl
  | opmap m => rfl

theorem isSimpleJsV_clauseToJs (c : Clause) : isSimpleJsV (clauseToJs c) = isSimpleJS c := by
  cases c with
  | simple v => cases v <;> rfl
  | opmap m => rfl

theorem jsOwnEntries_clauseToJs (c : Clause) (h : isSimpleJS c = false) :
    jsOwnEntries (clauseToJs c) =
      (clauseToObj c).map (fun p => (p.1, valueToJs p.2)) := by
  cases c with
  | simple v =>
    cases v with
    | vArr l =>
      show (valueListToJs l).enum.map (fun p => (toString p.1, p.2)) = _
      rw [valueListToJs_eq_map, List.enum_map]
      show _ = (l.enum.map (fun p => (toString p.1, p.2))).map (fun p => (p.1, valueToJs p.2))
      rw [List.map_map, List.map_map]
      rfl
    | vStr s => simp [isSimpleJS] at h
    | vNum n => simp [isSimpleJS] at h
    | vBool b => simp [isSimpleJS] at h
    | vNull => simp [isSimpleJS] at h
  | opmap m => rfl

theorem mergeStepJs_of_none (m : List (String × JsV)) (k : String) (v : JsV)
    (h : alLookup m k = none) : mergeStepJs m (k, v) = some (alInsert m k v) := by
  unfold mergeStepJs
  rw [show alLookup m (k, v).1 = none from h]

theorem mergeStepJs_of_falsy (m : List (String × JsV)) (k : String) (v cur : JsV)
    (h : alLookup m k = some cur) (ht : truthyJs cur = false) :
    mergeStepJs m (k, v) = some (alInsert m k v) := by
  unfold mergeStepJs
  rw [show alLookup m (k, v).1 = some cur from h]
  simp only [ht, Bool.false_eq_true, if_false]

theorem mergeStepJs_of_spread (m : List (String × JsV)) (k : String) (v cur : JsV)
    (h : alLookup m k = some cur) (ht : truthyJs cur = true)
    (hs : (isSimpleJsV cur || isSimpleJsV v) = false) :
    mergeStepJs m (k, v) =
      some (alInsert m k (.vobj (jsSpread (jsOwnEntries cur) (jsOwnEntries v)))) := by
  unfold mergeStepJs
  rw [show alLookup m (k, v).1 = some cur from h]
  rw [show isSimpleJsV (k, v).2 = isSimpleJsV v from rfl] at *
  simp only [ht, if_true, hs, Bool.false_eq_true, if_false]

theorem mergeStepJs_of_simple_newAnd (m : List (String × JsV)) (k : String) (v cur : JsV)
    (h : alLookup m k = some cur) (ht : truthyJs cur = true)
    (hs : (isSimpleJsV cur || isSimpleJsV v) = true)
    (hand : alLookup m "$and" = none) :
    mergeStepJs m (k, v) =
      some (alDelete (alInsert m "$and" (.varr [.vobj [(k, cur)], .vobj [(k, v)]])) k) := by
  unfold mergeStepJs
  rw [show alLookup m (k, v).1 = some cur from h]
  simp only [ht, if_true, hs, hand]
  rfl

theorem mergeStepJs_of_simple_oldAnd (m : List (String × JsV)) (k : String) (v cur : JsV)
    (l : List JsV)
    (h : alLookup m k = some cur) (ht : truthyJs cur = true)
    (hs : (isSimpleJsV cur || isSimpleJsV v) = true)
    (hand : alLookup m "$and" = some (.varr l)) :
    mergeStepJs m (k, v) =
      some (alDelete (alInsert m "$and" (.varr (l ++ [.vobj [(k, cur)], .vobj [(k, v)]]))) k) := by
  unfold mergeStepJs
  rw [show alLookup m (k, v).1 = some cur from h]
  simp only [ht, if_true, hs, hand]
  rfl

theorem mergeStepJs_simulates (q : FilterQuery) (m : List (String × JsV))
    (hrel : RelFQ q m) (p : String × Clause) (hp : p.1 ≠ "$and") :
    ∃ m' : List (String × JsV),
      mergeStepJs m (p.1, clauseToJs p.2) = some m' ∧ RelFQ (mergeStep q p) m' := by
  obtain ⟨hlook, hfand, hmand⟩ := hrel
  have hpne : ¬ (p.1 = "$and") := hp
  have handne : ¬ (("$and" : String) = p.1) := fun he => hp he.symm
  have hcur := hlook p.1 hp
  cases hqc : alLookup q.fields p.1 with
  | none =>
    have hmc : alLookup m p.1 = none := by
      rw [hcur, hqc]
      rfl
    refine ⟨_, mergeStepJs_of_none m p.1 (clauseToJs p.2) hmc, ?_, ?_, ?_⟩
    · intro k hk
      rw [mergeStep_of_none q p hqc]
      rw [alLookup_alInsert, alLookup_alInsert]
      by_cases hkp : p.1 = k
      · simp [hkp]
      · simp only [hkp, if_false]
        exact hlook k hk
    · rw [mergeStep_of_none q p hqc]
      show alLookup (alInsert q.fields p.1 p.2) "$and" = none
      rw [alLookup_alInsert]
      simp [hpne, hfand]
    · rw [mergeStep_of_none q p hqc]
      show alLookup (alInsert m p.1 (clauseToJs p.2)) "$and" = _
      rw [alLookup_alInsert]
      simp only [hpne, if_false]
      exact hmand
  | some dc =>
    have hmc : alLookup m p.1 = some (clauseToJs dc) := by
      rw [hcur, hqc]
      rfl
    by_cases ht : truthyClause dc = true
    · have htj : truthyJs (clauseToJs dc) = true := by
        rw [truthyJs_clauseToJs]
        exact ht
      by_cases hs : (isSimpleJS dc || isSimpleJS p.2) = true
      · have hsj : (isSimpleJsV (clauseToJs dc) || isSimpleJsV (clauseToJs p.2)) = true := by
          rw [isSimpleJsV_clauseToJs, isSimpleJsV_clauseToJs]
          exact hs
        cases hal : q.andList with
        | nil =>
          have hmandn : alLookup m "$and" = none := by
            rw [hal] at hmand
            exact hmand
          refine ⟨_, mergeStepJs_of_simple_newAnd m p.1 (clauseToJs p.2) (clauseToJs dc)
            hmc htj hsj hmandn, ?_, ?_, ?_⟩
          · intro k hk
            rw [mergeStep_of_simple q p dc hqc ht hs]
            show alLookup (alDelete (alInsert m "$and" _) p.1) k =
              (alLookup (alDelete q.fields p.1) k).map clauseToJs
            rw [alLookup_alDelete, alLookup_alDelete, alLookup_alInsert]
            by_cases hkp : p.1 = k
            · simp [hkp]
            · rw [if_neg hkp, if_neg hkp, if_neg (fun he => hk he.symm)]
              exact hlook k hk
          · rw [mergeStep_of_simple q p dc hqc ht hs]
            show alLookup (alDelete q.fields p.1) "$and" = none
            rw [alLookup_alDelete]
            simp [handne ∘ Eq.symm, hfand]
          · rw [mergeStep_of_simple q p dc hqc ht hs]
            show alLookup (alDelete (alInsert m "$and" _) p.1) "$and" = _
            rw [alLookup_alDelete, if_neg hpne, alLookup_alInsert, if_pos rfl, hal]
            rfl
        | cons c0 cs =>
          have hmands : alLookup m "$and" = some (.varr ((c0 :: cs).map conjToJs)) := by
            rw [hal] at hmand
            exact hmand
          refine ⟨_, mergeStepJs_of_simple_oldAnd m p.1 (clauseToJs p.2) (clauseToJs dc)
            ((c0 :: cs).map conjToJs) hmc htj hsj hmands, ?_, ?_, ?_⟩
          · intro k hk
            rw [mergeStep_of_simple q p dc hqc ht hs]
            show alLookup (alDelete (alInsert m "$and" _) p.1) k =
              (alLookup (alDelete q.fields p.1) k).map clauseToJs
            rw [alLookup_alDelete, alLookup_alDelete, alLookup_alInsert]
            by_cases hkp : p.1 = k
            · simp [hkp]
            · simp only [hkp, if_false]
              rw [if_neg (fun he => hk he.symm)]
              exact hlook k hk
          · rw [mergeStep_of_simple q p dc hqc ht hs]
            show alLookup (alDelete q.fields p.1) "$and" = none
            rw [alLookup_alDelete]
            simp [handne ∘ Eq.symm, hfand]
          · rw [mergeStep_of_simple q p dc hqc ht hs]
            show alLookup (alDelete (alInsert m "$and" _) p.1) "$and" = _
            rw [alLookup_alDelete, if_neg hpne, alLookup_alInsert, if_pos rfl, hal]
            show some (JsV.varr ((c0 :: cs).map conjToJs ++
                [conjToJs (p.1, dc), conjToJs (p.1, p.2)])) =
              some (JsV.varr (((c0 :: cs) ++ [(p.1, dc), (p.1, p.2)]).map conjToJs))
            rw [List.map_append]
            rfl
      · have hs' : (isSimpleJS dc || isSimpleJS p.2) = false := by simpa using hs
        have hsj : (isSimpleJsV (clauseToJs dc) || isSimpleJsV (clauseToJs p.2)) = false := by
          rw [isSimpleJsV_clauseToJs, isSimpleJsV_clauseToJs]
          exact hs'
        have hsboth := Bool.or_eq_false_iff.mp hs'
        have hval : JsV.vobj (jsSpread (jsOwnEntries (clauseToJs dc)) (jsOwnEntries (clauseToJs p.2))) =
            clauseToJs (.opmap (jsSpread (clauseToObj dc) (clauseToObj p.2))) := by
          rw [jsOwnEntries_clauseToJs dc hsboth.1, jsOwnEntries_clauseToJs p.2 hsboth.2,
            jsSpread_map_snd]
          rfl
        refine ⟨_, mergeStepJs_of_spread m p.1 (clauseToJs p.2) (clauseToJs dc) hmc htj hsj,
          ?_, ?_, ?_⟩
        · intro k hk
          rw [mergeStep_of_opmaps q p dc hqc ht hs']
          show alLookup (alInsert m p.1 _) k = (alLookup (alInsert q.fields p.1 _) k).map clauseToJs
          rw [alLookup_alInsert, alLookup_alInsert]
          by_cases hkp : p.1 = k
          · simp only [hkp, if_true, Option.map_some']
            rw [hval]
          · simp only [hkp, if_false]
            exact hlook k hk
        · rw [mergeStep_of_opmaps q p dc hqc ht hs']
          show alLookup (alInsert q.fields p.1 _) "$and" = none
          rw [alLookup_alInsert]
          simp [hpne, hfand]
        · rw [mergeStep_of_opmaps q p dc hqc ht hs']
          show alLookup (alInsert m p.1 _) "$and" = _
          rw [alLookup_alInsert]
          simp only [hpne, if_false]
          exact hmand
    · have ht' : truthyClause dc = false := by simpa using ht
      have htj : truthyJs (clauseToJs dc) = false := by
        rw [truthyJs_clauseToJs]
        exact ht'
      refine ⟨_, mergeStepJs_of_falsy m p.1 (clauseToJs p.2) (clauseToJs dc) hmc htj,
        ?_, ?_, ?_⟩
      · intro k hk
        rw [mergeStep_of_falsy q p dc hqc ht']
        show alLookup (alInsert m p.1 _) k = (alLookup (alInsert q.fields p.1 p.2) k).map clauseToJs
        rw [alLookup_alInsert, alLookup_alInsert]
        by_cases hkp : p.1 = k
        · simp [hkp]
        · simp only [hkp, if_false]
          exact hlook k hk
      · rw [mergeStep_of_falsy q p dc hqc ht']
        show alLookup (alInsert q.fields p.1 p.2) "$and" = none
        rw [alLookup_alInsert]
        simp [hpne, hfand]
      · rw [mergeStep_of_falsy q p dc hqc ht']
        show alLookup (alInsert m p.1 _) "$and" = _
        rw [alLookup_alInsert]
        simp only [hpne, if_false]
        exact hmand

theorem mergeFoldJs_simulates (uf : List (String × Clause)) (q : FilterQuery)
    (m : List (String × JsV)) (hrel : RelFQ q m)
    (hu : ∀ p ∈ uf, p.1 ≠ "$and") :
    ∃ m' : List (String × JsV),
      mergeFoldJs m (uf.map (fun p => (p.1, clauseToJs p.2))) = some m' ∧
      RelFQ (uf.foldl mergeStep q) m' := by
  induction uf generalizing q m with
  | nil => exact ⟨m, rfl, hrel⟩
  | cons p rest ih =>
    obtain ⟨m1, hstep, hrel1⟩ := mergeStepJs_simulates q m hrel p (hu p (by simp))
    obtain ⟨m', hfold, hrel'⟩ :=
      ih (mergeStep q p) m1 hrel1 (fun x hx => hu x (List.mem_cons_of_mem _ hx))
    refine ⟨m', ?_, hrel'⟩
    show (match mergeStepJs m (p.1, clauseToJs p.2) with
          | some m1 => mergeFoldJs m1 (rest.map (fun p => (p.1, clauseToJs p.2)))
          | none => none) = some m'
    rw [hstep]
    exact hfold

/-- On `$and`-free compiled filter sets the two-component merge agrees with
the single-object merge of the source: the latter succeeds, binds every
ordinary key as the former's `fields`, and holds the former's `andList`
(conjunct by conjunct) under the `$and` key. -/
theorem mergeJs_simulates (df uf : List (String × Clause))
    (hd : alLookup df "$and" = none) (hu : ∀ p ∈ uf, p.1 ≠ "$and") :
    ∃ m : List (String × JsV),
      mergeFilterQueriesJs (df.map (fun p => (p.1, clauseToJs p.2)))
        (uf.map (fun p => (p.1, clauseToJs p.2))) = some m ∧
      RelFQ (mergeFilterQueries ⟨df, []⟩ ⟨uf, []⟩) m := by
  have hrel0 : RelFQ ⟨df, []⟩ (df.map (fun p => (p.1, clauseToJs p.2))) := by
    refine ⟨?_, hd, ?_⟩
    · intro k _
      exact alLookup_map_snd _ df k
    · show alLookup (df.map _) "$and" = none
      rw [alLookup_map_snd, hd]
      rfl
  exact mergeFoldJs_simulates uf ⟨df, []⟩ _ hrel0 hu

/-! ## The assembled mongoose query

`MQuery` records observable state accumulated by the chained calls
`find`, `sort`, `select`, `populate`, `skip`, `limit`.  Repeated `sort` and
`select` calls merge their arguments key-wise (mongoose semantics); repeated
`find` calls conjoin conditions. -/

inductive SVal : Type where
  | num : Int → SVal
  | textScore : SVal
deriving DecidableEq

inductive PVal : Type where
  | one : PVal
  | textScore : PVal
deriving DecidableEq

/-- `buildFullTextSearchQuery` output (search-operators.ts): a `$text` clause. -/
structure TextQuery : Type where
  search : String
  caseSensitive : Bool
  diacriticSensitive : Bool
  language : Option String
deriving DecidableEq

inductive MCond : Type where
  | filt : FilterQuery → MCond
  | text : TextQuery → MCond
deriving DecidableEq

structure MQuery : Type where
  conds : List MCond
  sortSpec : List (String × SVal)
  projection : List (String × PVal)
  populates : List (String × Option (List (String × PVal)))
  skipN : Option Nat
  limitN : Option Nat
deriving DecidableEq

def emptyQuery : MQuery := ⟨[], [], [], [], none, none⟩

def qFind (q : MQuery) (c : MCond) : MQuery := { q with conds := q.conds ++ [c] }

def qSort (q : MQuery) (s : List (String × SVal)) : MQuery :=
  { q with sortSpec := jsSpread q.sortSpec s }

def qSelect (q : MQuery) (p : List (String × PVal)) : MQuery :=
  { q with projection := jsSpread q.projection p }

def qPopulate (q : MQuery) (path : String) (sel : Option (List (String × PVal))) : MQuery :=
  { q with populates := q.populates ++ [(path, sel)] }

/-! ## Full-text search (search-operators.ts and applyFullTextSearch) -/

structure FTS : Type where
  searchText : String
  language : Option String
  caseSensitive : Option Bool
  diacriticSensitive : Option Bool
  sortByScore : Option Bool
deriving DecidableEq

def buildFullTextSearchQuery (searchText : String) (language : Option String)
    (caseSensitive diacriticSensitive : Bool) : TextQuery :=
  ⟨searchText, caseSensitive, diacriticSensitive, language⟩

def includeTextScore : List (String × PVal) := [("score", .textScore)]

def sortByTextScore : List (String × SVal) := [("score", .textScore)]

/-- `applyFullTextSearch` (lines 388-417): applies the `$text` condition and,
when `sortByScore`, also the score projection and the score sort. -/
def applyFullTextSearchM (q : MQuery) (fts : FTS) : MQuery :=
  let tq := buildFullTextSearchQuery fts.searchText fts.language
    (fts.caseSensitive.getD false) (fts.diacriticSensitive.getD false)
  let q1 := qFind q (.text tq)
  if fts.sortByScore.getD false then qSort (qSelect q1 includeTextScore) sortByTextScore
  else q1

/-! ## Normalized options and the query-building pipeline (lines 119-160, 265-356) -/

structure Pagination : Type where
  page : Nat
  limit : Nat
  offset : Option Nat
deriving DecidableEq

structure NQueryOptions : Type where
  filters : Option (List (String × Value)) := none
  sorting : Option (List SortEntry) := none
  pagination : Option Pagination := none
  selectFields : Option (List String) := none
  populate : Option (List PopulateOpt) := none
  defaultFilters : Option (List (String × Value)) := none
  fullTextSearch : Option FTS := none

/-- `applyFilters` (lines 358-386). -/
def applyFiltersM (opts : NQueryOptions) (q : MQuery) : MQuery :=
  let fq1 : FilterQuery :=
    match opts.defaultFilters with
    | some df => buildFilterQuery df
    | none => ⟨[], []⟩
  let fq2 : FilterQuery :=
    match opts.filters with
    | some fs => mergeFilterQueries fq1 (buildFilterQuery fs)
    | none => fq1
  if fq2.isEmpty then q else qFind q (.filt fq2)

def stageFTS (opts : NQueryOptions) (q : MQuery) : MQuery :=
  match opts.fullTextSearch with
  | some f => applyFullTextSearchM q f
  | none => q

/-- The `sortOptions` object built by the sorting loop in `buildQuery`. -/
def compileSortEntries (l : List SortEntry) : List (String × SVal) :=
  l.foldl (fun acc e => alInsert acc e.field (if e.order = "asc" then .num 1 else .num (-1))) []

def stageSort (opts : NQueryOptions) (q : MQuery) : MQuery :=
  match opts.sorting with
  | some l => if 0 < l.length then qSort q (compileSortEntries l) else q
  | none => q

/-- The projection object built by the field-selection loop in `buildQuery`:
`"-_id"` deletes an `_id` inclusion, other `-`-prefixed fields are skipped,
plain fields are included. -/
def buildSelectProjection (l : List String) : List (String × PVal) :=
  l.foldl
    (fun proj fld =>
      if fld = "-_id" then alDelete proj "_id"
      else if strStartsWith fld "-" then proj
      else alInsert proj fld .one) []

def stageSelect (opts : NQueryOptions) (q : MQuery) : MQuery :=
  match opts.selectFields with
  | some l => if 0 < l.length then qSelect q (buildSelectProjection l) else q
  | none => q

/-- The per-relation sub-projection built inside the populate loop: inclusion
entries only, then `_id` added unless `"-_id"` is present. -/
def compilePopulateSelect (sel : List String) : List (String × PVal) :=
  if sel.contains "-_id" then
    sel.foldl (fun proj fld => if strStartsWith fld "-" then proj else alInsert proj fld .one) []
  else
    alInsert
      (sel.foldl (fun proj fld => if strStartsWith fld "-" then proj else alInsert proj fld .one) [])
      "_id" .one

def stagePopulate (opts : NQueryOptions) (q : MQuery) : MQuery :=
  match opts.populate with
  | some l =>
    if 0 < l.length then
      l.foldl
        (fun q opt =>
          match opt.select with
          | some sel => qPopulate q opt.path (some (compilePopulateSelect sel))
          | none => qPopulate q opt.path none) q
    else q
  | none => q

def stagePagination (opts : NQueryOptions) (q : MQuery) : MQuery :=
  match opts.pagination with
  | some p => { q with skipN := some ((p.page - 1) * p.limit), limitN := some p.limit }
  | none => q

/-- `buildQuery` (lines 265-339): filters → full-text search → sort →
selection → population → pagination, in that fixed order. -/
def buildQuery (opts : NQueryOptions) : MQuery :=
  stagePagination opts (stagePopulate opts (stageSelect opts (stageSort opts
    (stageFTS opts (applyFiltersM opts emptyQuery)))))

/-- `buildCountQuery` (lines 341-356): filters and full-text search only. -/
def buildCountQuery (opts : NQueryOptions) : MQuery :=
  stageFTS opts (applyFiltersM opts emptyQuery)

/-! ## The `graph` entrypoint (lines 29-115) -/

structure RawPagination : Type where
  page : Option Nat
  limit : Option Nat
  offset : Option Nat
deriving DecidableEq

structure RawConfig : Type where
  filters : Option (List (String × Value)) := none
  sort : Option SortInput := none
  pagination : Option RawPagination := none
  fields : Option SelectInput := none
  expand : Option ExpandInput := none
  defaultFilters : Option (List (String × Value)) := none
  fullTextSearch : Option FTS := none

/-- JS `x || d` for an optional number (`0` and `undefined` both yield `d`). -/
def jsOrNat (o : Option Nat) (d : Nat) : Nat :=
  match o with
  | some n => if n = 0 then d else n
  | none => d

/-- `normalizeOptions` (lines 119-160). -/
def normalizeOptions (cfg : RawConfig) : NQueryOptions :=
  { filters := cfg.filters.map parseFilters
    sorting := cfg.sort.map parseSorting
    pagination := cfg.pagination.map (fun p => ⟨jsOrNat p.page 1, jsOrNat p.limit 10, p.offset⟩)
    selectFields := cfg.fields.map parseSelect
    populate := cfg.expand.map parseExpand
    defaultFilters := cfg.defaultFilters
    fullTextSearch := cfg.fullTextSearch }

structure Meta : Type where
  totalCount : Nat
  currentPage : Nat
  pageSize : Nat
  totalPages : Nat
  hasNextPage : Bool
  hasPrevPage : Bool
deriving DecidableEq

structure GraphResult (α : Type) : Type where
  data : List α
  metadata : Meta

/-- The `graph` method, parametric over the store: `execF` executes the
assembled query, `countF` runs `countDocuments` on the count query.
`totalPages = Math.ceil(totalCount / limit)`. -/
def graphModel {α : Type} (execF : MQuery → List α) (countF : MQuery → Nat)
    (cfg : RawConfig) : GraphResult α :=
  let options := normalizeOptions cfg
  let data := execF (buildQuery options)
  let totalCount : Nat :=
    match options.pagination with
    | some _ => countF (buildCountQuery options)
    | none => data.length
  let page := (options.pagination.map Pagination.page).getD 1
  let limit := (options.pagination.map Pagination.limit).getD 10
  let totalPages := (Int.ceil ((totalCount : ℚ) / (limit : ℚ))).toNat
  ⟨data, ⟨totalCount, page, limit, totalPages, decide (page < totalPages), decide (1 < page)⟩⟩

/-! ## Middleware sort parsing (query-builder.middleware.ts lines 326-368) -/

/-- Validation applied by the middleware to one `field:order` item:
case-normalize the direction, reject the entry unless it is `asc`/`desc`. -/
def middlewareSortItem (item : String) : Option SortEntry :=
  let parts := jsSplit ':' item
  let order := (parts.get? 1).getD "asc"
  if jsToLower order = "asc" ∨ jsToLower order = "desc" then
    some ⟨jsTrim (parts.headD ""), jsToLower order⟩
  else none

/-- The middleware's `req.query.sort` handling: a comma branch parsing every
item and dropping invalid ones, and a single-item branch; `none` means
`queryOptions.sort` is left unset. -/
def middlewareParseSort (sortParam : String) : Option (List SortEntry) :=
  if sortParam.data.contains ',' then
    let sortFields := (jsSplit ',' sortParam).filterMap middlewareSortItem
    if 0 < sortFields.length then some sortFields else none
  else
    match middlewareSortItem sortParam with
    | some e => some [e]
    | none => none

/-! ## Matching semantics for compiled filters

Clause satisfaction is parametric in the interpretation of equality
(`eqSem`) and of each operator key (`opSem`), so enforcement statements hold
for every interpretation of the MongoDB operators. -/

def satisfiesClause (opSem : String → Option Value → Value → Bool)
    (eqSem : Option Value → Value → Bool) (dv : Option Value) : Clause → Bool
  | .simple v => eqSem dv v
  | .opmap m => m.all fun p => opSem p.1 dv p.2

/-- A document matches a compiled filter if every field clause and every
`$and` conjunct is satisfied. -/
def satisfiesFilter (opSem : String → Option Value → Value → Bool)
    (eqSem : Option Value → Value → Bool) (doc : String → Option Value)
    (q : FilterQuery) : Bool :=
  q.fields.all (fun p => satisfiesClause opSem eqSem (doc p.1) p.2) &&
  q.andList.all (fun p => satisfiesClause opSem eqSem (doc p.1) p.2)

/-- Standard equality interpretation used for concrete instances. -/
def stdEqSem (dv : Option Value) (v : Value) : Bool := dv = some v

/-- A concrete interpretation of the comparison operators on integers,
used for concrete instances. -/
def stdOpSem (k : String) (dv : Option Value) (v : Value) : Bool :=
  match k, dv, v with
  | "$gte", some (.vNum a), .vNum b => decide (b ≤ a)
  | "$lte", some (.vNum a), .vNum b => decide (a ≤ b)
  | "$gt", some (.vNum a), .vNum b => decide (b < a)
  | "$lt", some (.vNum a), .vNum b => decide (a < b)
  | "$ne", some w, x => !(w = x)
  | "$eq", some w, x => decide (w = x)
  | _, _, _ => false

/-! ## Specification-side definitions, for comparison with the embedded code -/

/-- The sort/projection contribution of the full-text-search stage alone:
only a `sortByScore` request yields a (score) sort entry. -/
def scoreSortSpec (opts : NQueryOptions) : List (String × SVal) :=
  match opts.fullTextSearch with
  | some f => if f.sortByScore.getD false then [("score", .textScore)] else []
  | none => []

/-- The projection contribution of the full-text-search stage alone. -/
def scoreProjSpec (opts : NQueryOptions) : List (String × PVal) :=
  match opts.fullTextSearch with
  | some f => if f.sortByScore.getD false then [("score", .textScore)] else []
  | none => []

/-- Render a sort spec in the string grammar `"f1:o1,f2:o2"`. -/
def renderSort (l : List SortEntry) : String :=
  String.mk (joinChars ',' (l.map fun e => e.field.data ++ ':' :: e.order.data))

/-- The middleware sort grammar stated as one filter-map over the comma
split: validate every item, drop invalid ones, leave the option unset when
nothing survives. -/
def mwSortSpec (s : String) : Option (List SortEntry) :=
  if ((jsSplit ',' s).filterMap middlewareSortItem).isEmpty then none
  else some ((jsSplit ',' s).filterMap middlewareSortItem)

/-! # Theorems -/

/-! ## Arithmetic: `Math.ceil` of a natural quotient -/

theorem ceilDiv_toNat_eq (a b : Nat) (hb : 0 < b) :
    (Int.ceil ((a : ℚ) / (b : ℚ))).toNat = (a + b - 1) / b := by
  have hbq : (0 : ℚ) < (b : ℚ) := by exact_mod_cast hb
  have hmod := Nat.div_add_mod (a + b - 1) b
  have hrlt : (a + b - 1) % b < b := Nat.mod_lt _ hb
  set z := (a + b - 1) / b with hz
  have h1 : a ≤ b * z := by omega
  have h2 : b * z < a + b := by omega
  have hceil : Int.ceil ((a : ℚ) / (b : ℚ)) = (z : ℤ) := by
    rw [Int.ceil_eq_iff]
    constructor
    · rw [lt_div_iff₀ hbq]
      have h2q : (b : ℚ) * z < a + b := by exact_mod_cast h2
      push_cast
      linarith
    · rw [div_le_iff₀ hbq]
      have h1q : (a : ℚ) ≤ b * z := by exact_mod_cast h1
      push_cast
      linarith
  rw [hceil]
  simp

theorem jsOrNat_pos (o : Option Nat) (d : Nat) (hd : 0 < d) : 0 < jsOrNat o d := by
  cases o with
  | none => exact hd
  | some n =>
    by_cases h : n = 0
    · simpa [jsOrNat, h] using hd
    · simpa [jsOrNat, h] using Nat.pos_of_ne_zero h

theorem graph_pageSize_pos {α : Type} (execF : MQuery → List α) (countF : MQuery → Nat)
    (cfg : RawConfig) : 0 < (graphModel execF countF cfg).metadata.pageSize := by
  show 0 < ((normalizeOptions cfg).pagination.map Pagination.limit).getD 10
  cases hcp : cfg.pagination with
  | none => simp [normalizeOptions, hcp]
  | some rp =>
    simp only [normalizeOptions, hcp, Option.map_some', Option.getD_some]
    exact jsOrNat_pos rp.limit 10 (by omega)

/-- **C4**: in every response envelope, `totalPages` is the ceiling of
`totalCount / pageSize`, `hasNextPage` holds exactly when
`currentPage < totalPages`, and `hasPrevPage` exactly when `currentPage > 1`. -/
theorem graph_pagination_metadata {α : Type} (execF : MQuery → List α)
    (countF : MQuery → Nat) (cfg : RawConfig) :
    (graphModel execF countF cfg).metadata.totalPages =
      ((graphModel execF countF cfg).metadata.totalCount +
        (graphModel execF countF cfg).metadata.pageSize - 1) /
        (graphModel execF countF cfg).metadata.pageSize ∧
    ((graphModel execF countF cfg).metadata.hasNextPage = true ↔
      (graphModel execF countF cfg).metadata.currentPage <
        (graphModel execF countF cfg).metadata.totalPages) ∧
    ((graphModel execF countF cfg).metadata.hasPrevPage = true ↔
      1 < (graphModel execF countF cfg).metadata.currentPage) := by
  refine ⟨?_, ?_, ?_⟩
  · exact ceilDiv_toNat_eq _ _ (graph_pageSize_pos execF countF cfg)
  · exact decide_eq_true_iff
  · exact decide_eq_true_iff

/-! ## Pipeline-stage structure lemmas -/

theorem applyFiltersM_sortSpec (opts : NQueryOptions) (q : MQuery) :
    (applyFiltersM opts q).sortSpec = q.sortSpec := by
  simp only [applyFiltersM]
  split <;> rfl

theorem applyFiltersM_projection (opts : NQueryOptions) (q : MQuery) :
    (applyFiltersM opts q).projection = q.projection := by
  simp only [applyFiltersM]
  split <;> rfl

theorem applyFiltersM_populates (opts : NQueryOptions) (q : MQuery) :
    (applyFiltersM opts q).populates = q.populates := by
  simp only [applyFiltersM]
  split <;> rfl

theorem applyFiltersM_skipN (opts : NQueryOptions) (q : MQuery) :
    (applyFiltersM opts q).skipN = q.skipN := by
  simp only [applyFiltersM]
  split <;> rfl

theorem applyFiltersM_limitN (opts : NQueryOptions) (q : MQuery) :
    (applyFiltersM opts q).limitN = q.limitN := by
  simp only [applyFiltersM]
  split <;> rfl

theorem applyFullTextSearchM_populates (q : MQuery) (f : FTS) :
    (applyFullTextSearchM q f).populates = q.populates := by
  simp only [applyFullTextSearchM]
  split <;> rfl

theorem applyFullTextSearchM_skipN (q : MQuery) (f : FTS) :
    (applyFullTextSearchM q f).skipN = q.skipN := by
  simp only [applyFullTextSearchM]
  split <;> rfl

theorem applyFullTextSearchM_limitN (q : MQuery) (f : FTS) :
    (applyFullTextSearchM q f).limitN = q.limitN := by
  simp only [applyFullTextSearchM]
  split <;> rfl

theorem stageFTS_populates (opts : NQueryOptions) (q : MQuery) :
    (stageFTS opts q).populates = q.populates := by
  cases h : opts.fullTextSearch <;> simp only [stageFTS, h]
  exact applyFullTextSearchM_populates q _

theorem stageFTS_skipN (opts : NQueryOptions) (q : MQuery) :
    (stageFTS opts q).skipN = q.skipN := by
  cases h : opts.fullTextSearch <;> simp only [stageFTS, h]
  exact applyFullTextSearchM_skipN q _

theorem stageFTS_limitN (opts : NQueryOptions) (q : MQuery) :
    (stageFTS opts q).limitN = q.limitN := by
  cases h : opts.fullTextSearch <;> simp only [stageFTS, h]
  exact applyFullTextSearchM_limitN q _

theorem stageSort_conds (opts : NQueryOptions) (q : MQuery) :
    (stageSort opts q).conds = q.conds := by
  cases h : opts.sorting <;> simp only [stageSort, h]
  split <;> rfl

theorem stageSort_projection (opts : NQueryOptions) (q : MQuery) :
    (stageSort opts q).projection = q.projection := by
  cases h : opts.sorting <;> simp only [stageSort, h]
  split <;> rfl

theorem stageSelect_conds (opts : NQueryOptions) (q : MQuery) :
    (stageSelect opts q).conds = q.conds := by
  cases h : opts.selectFields <;> simp only [stageSelect, h]
  split <;> rfl

theorem stageSelect_sortSpec (opts : NQueryOptions) (q : MQuery) :
    (stageSelect opts q).sortSpec = q.sortSpec := by
  cases h : opts.selectFields <;> simp only [stageSelect, h]
  split <;> rfl

theorem popFold_conds (l : List PopulateOpt) (q : MQuery) :
    (l.foldl
      (fun q opt =>
        match opt.select with
        | some sel => qPopulate q opt.path (some (compilePopulateSelect sel))
        | none => qPopulate q opt.path none) q).conds = q.conds := by
  induction l generalizing q with
  | nil => rfl
  | cons opt rest ih =>
    rw [List.foldl_cons, ih]
    cases opt.select <;> rfl

theorem popFold_sortSpec (l : List PopulateOpt) (q : MQuery) :
    (l.foldl
      (fun q opt =>
        match opt.select with
        | some sel => qPopulate q opt.path (some (compilePopulateSelect sel))
        | none => qPopulate q opt.path none) q).sortSpec = q.sortSpec := by
  induction l generalizing q with
  | nil => rfl
  | cons opt rest ih =>
    rw [List.foldl_cons, ih]
    cases opt.select <;> rfl

theorem popFold_projection (l : List PopulateOpt) (q : MQuery) :
    (l.foldl
      (fun q opt =>
        match opt.select with
        | some sel => qPopulate q opt.path (some (compilePopulateSelect sel))
        | none => qPopulate q opt.path none) q).projection = q.projection := by
  induction l generalizing q with
  | nil => rfl
  | cons opt rest ih =>
    rw [List.foldl_cons, ih]
    cases opt.select <;> rfl

theorem stagePopulate_conds (opts : NQueryOptions) (q : MQuery) :
    (stagePopulate opts q).conds = q.conds := by
  cases h : opts.populate <;> simp only [stagePopulate, h]
  split
  · exact popFold_conds _ q
  · rfl

theorem stagePopulate_sortSpec (opts : NQueryOptions) (q : MQuery) :
    (stagePopulate opts q).sortSpec = q.sortSpec := by
  cases h : opts.populate <;> simp only [stagePopulate, h]
  split
  · exact popFold_sortSpec _ q
  · rfl

theorem stagePopulate_projection (opts : NQueryOptions) (q : MQuery) :
    (stagePopulate opts q).projection = q.projection := by
  cases h : opts.populate <;> simp only [stagePopulate, h]
  split
  · exact popFold_projection _ q
  · rfl

theorem stagePagination_conds (opts : NQueryOptions) (q : MQuery) :
    (stagePagination opts q).conds = q.conds := by
  cases h : opts.pagination <;> simp only [stagePagination, h]

theorem stagePagination_sortSpec (opts : NQueryOptions) (q : MQuery) :
    (stagePagination opts q).sortSpec = q.sortSpec := by
  cases h : opts.pagination <;> simp only [stagePagination, h]

theorem stagePagination_projection (opts : NQueryOptions) (q : MQuery) :
    (stagePagination opts q).projection = q.projection := by
  cases h : opts.pagination <;> simp only [stagePagination, h]

theorem buildQuery_conds_eq_countQuery (opts : NQueryOptions) :
    (buildQuery opts).conds = (buildCountQuery opts).conds := by
  unfold buildQuery buildCountQuery
  rw [stagePagination_conds, stagePopulate_conds, stageSelect_conds, stageSort_conds]

theorem buildCountQuery_populates (opts : NQueryOptions) :
    (buildCountQuery opts).populates = [] := by
  unfold buildCountQuery
  rw [stageFTS_populates, applyFiltersM_populates]
  rfl

theorem buildCountQuery_skipN (opts : NQueryOptions) :
    (buildCountQuery opts).skipN = none := by
  unfold buildCountQuery
  rw [stageFTS_skipN, applyFiltersM_skipN]
  rfl

theorem buildCountQuery_limitN (opts : NQueryOptions) :
    (buildCountQuery opts).limitN = none := by
  unfold buildCountQuery
  rw [stageFTS_limitN, applyFiltersM_limitN]
  rfl

theorem stageFTS_sortSpec_of_empty (opts : NQueryOptions) (q : MQuery)
    (h : q.sortSpec = []) : (stageFTS opts q).sortSpec = scoreSortSpec opts := by
  simp only [stageFTS, scoreSortSpec]
  cases hf : opts.fullTextSearch with
  | none => exact h
  | some f =>
    simp only [applyFullTextSearchM]
    by_cases hs : f.sortByScore.getD false = true
    · simp only [hs, if_true]
      show jsSpread (qSelect (qFind q _) _).sortSpec sortByTextScore = _
      simp [qSelect, qFind, h, jsSpread, sortByTextScore, alInsert]
    · rw [Bool.not_eq_true] at hs
      simp only [hs, Bool.false_eq_true, if_false]
      exact h

theorem stageFTS_projection_of_empty (opts : NQueryOptions) (q : MQuery)
    (h : q.projection = []) : (stageFTS opts q).projection = scoreProjSpec opts := by
  simp only [stageFTS, scoreProjSpec]
  cases hf : opts.fullTextSearch with
  | none => exact h
  | some f =>
    simp only [applyFullTextSearchM]
    by_cases hs : f.sortByScore.getD false = true
    · simp only [hs, if_true]
      show jsSpread (qFind q _).projection includeTextScore = _
      simp [qFind, h, jsSpread, includeTextScore, alInsert]
    · rw [Bool.not_eq_true] at hs
      simp only [hs, Bool.false_eq_true, if_false]
      exact h

theorem buildCountQuery_sortSpec (opts : NQueryOptions) :
    (buildCountQuery opts).sortSpec = scoreSortSpec opts := by
  unfold buildCountQuery
  exact stageFTS_sortSpec_of_empty opts _ (applyFiltersM_sortSpec opts emptyQuery)

theorem buildCountQuery_projection (opts : NQueryOptions) :
    (buildCountQuery opts).projection = scoreProjSpec opts := by
  unfold buildCountQuery
  exact stageFTS_projection_of_empty opts _ (applyFiltersM_projection opts emptyQuery)

/-- **C5** (amended): the count query carries exactly the conditions of the main
query (merged filters plus the full-text-search clause) and no population,
skip or limit; its sort and projection are empty except for the relevance-score
entries that the full-text-search application itself adds when `sortByScore`
is set.  `totalCount` comes from the count query when pagination was
requested, and is the length of the returned data otherwise. -/
theorem graph_count_query_shape {α : Type} (execF : MQuery → List α)
    (countF : MQuery → Nat) (cfg : RawConfig) :
    (buildCountQuery (normalizeOptions cfg)).conds = (buildQuery (normalizeOptions cfg)).conds ∧
    (buildCountQuery (normalizeOptions cfg)).populates = [] ∧
    (buildCountQuery (normalizeOptions cfg)).skipN = none ∧
    (buildCountQuery (normalizeOptions cfg)).limitN = none ∧
    (buildCountQuery (normalizeOptions cfg)).sortSpec = scoreSortSpec (normalizeOptions cfg) ∧
    (buildCountQuery (normalizeOptions cfg)).projection = scoreProjSpec (normalizeOptions cfg) ∧
    (graphModel execF countF cfg).metadata.totalCount =
      (match (normalizeOptions cfg).pagination with
       | some _ => countF (buildCountQuery (normalizeOptions cfg))
       | none => (execF (buildQuery (normalizeOptions cfg))).length) := by
  refine ⟨(buildQuery_conds_eq_countQuery _).symm, buildCountQuery_populates _,
    buildCountQuery_skipN _, buildCountQuery_limitN _, buildCountQuery_sortSpec _,
    buildCountQuery_projection _, rfl⟩

/-- **C5** counterexample: with `sortByScore` full-text search, the count query
does carry a (score) sort and a (score) projection, contrary to the claim's
"no sort, no projection". -/
theorem count_query_score_sort_cex :
    (buildCountQuery { fullTextSearch := some ⟨"laptop", none, none, none, some true⟩, pagination := some ⟨1, 10, none⟩ }).sortSpec = [("score", SVal.textScore)] ∧
    (buildCountQuery { fullTextSearch := some ⟨"laptop", none, none, none, some true⟩, pagination := some ⟨1, 10, none⟩ }).projection = [("score", PVal.textScore)] ∧
    (buildCountQuery { fullTextSearch := some ⟨"laptop", none, none, none, some true⟩, pagination := some ⟨1, 10, none⟩ }).sortSpec ≠ [] := by
  refine ⟨by decide, by decide, by decide⟩

/-! ## Field selection with exclusion-only lists (C10) -/

theorem buildSelectProjection_all_exclusion (l : List String)
    (h : ∀ f ∈ l, strStartsWith f "-" = true) : buildSelectProjection l = [] := by
  unfold buildSelectProjection
  induction l with
  | nil => rfl
  | cons f rest ih =>
    rw [List.foldl_cons]
    have hstep : (if f = "-_id" then alDelete ([] : List (String × PVal)) "_id"
        else if strStartsWith f "-" then [] else alInsert [] f PVal.one) = [] := by
      by_cases hf : f = "-_id"
      · simp [hf, alDelete]
      · simp [hf, h f (by simp)]
    rw [hstep]
    exact ih (fun g hg => h g (List.mem_cons_of_mem _ hg))

theorem compilePopulateSelect_all_exclusion (sel : List String)
    (h : ∀ f ∈ sel, strStartsWith f "-" = true) :
    compilePopulateSelect sel =
      if sel.contains "-_id" then [] else [("_id", PVal.one)] := by
  unfold compilePopulateSelect
  have hfold : sel.foldl
      (fun proj fld => if strStartsWith fld "-" then proj
        else alInsert proj fld PVal.one) ([] : List (String × PVal)) = [] := by
    induction sel with
    | nil => rfl
    | cons f rest ih =>
      rw [List.foldl_cons, if_pos (h f (by simp))]
      exact ih (fun g hg => h g (List.mem_cons_of_mem _ hg))
  rw [hfold]
  by_cases hid : "-_id" ∈ sel
  · simp [hid]
  · simp [hid, alInsert]

/-- **C10**: when every normalized selection entry carries the exclusion
prefix `-`, the selection stage contributes nothing: the main-query projection
equals the projection without any selection (and is empty when no full-text
search is active), and populate sub-projections built from exclusion-only
lists contain only the default `_id` inclusion (or nothing if `-_id` is
present). -/
theorem buildQuery_exclusion_only_selection (opts : NQueryOptions) (l : List String)
    (hsel : opts.selectFields = some l) (hexc : ∀ f ∈ l, strStartsWith f "-" = true) :
    (buildQuery opts).projection = (buildQuery { opts with selectFields := none }).projection ∧
    (opts.fullTextSearch = none → (buildQuery opts).projection = []) ∧
    (∀ sel : List String, (∀ f ∈ sel, strStartsWith f "-" = true) →
      compilePopulateSelect sel =
        if sel.contains "-_id" then [] else [("_id", PVal.one)]) := by
  have hstageSel : ∀ q : MQuery, (stageSelect opts q).projection = q.projection := by
    intro q
    simp only [stageSelect, hsel]
    split
    · show (qSelect q (buildSelectProjection l)).projection = q.projection
      rw [buildSelectProjection_all_exclusion l hexc]
      rfl
    · rfl
  have hmain : (buildQuery opts).projection =
      (stageFTS opts (applyFiltersM opts emptyQuery)).projection := by
    unfold buildQuery
    rw [stagePagination_projection, stagePopulate_projection, hstageSel,
      stageSort_projection]
  refine ⟨?_, ?_, fun sel hs => compilePopulateSelect_all_exclusion sel hs⟩
  · have hright : (buildQuery { opts with selectFields := none }).projection =
        (stageFTS opts (applyFiltersM opts emptyQuery)).projection := by
      unfold buildQuery
      rw [stagePagination_projection, stagePopulate_projection]
      have : (stageSelect { opts with selectFields := none }
          (stageSort { opts with selectFields := none }
            (stageFTS { opts with selectFields := none }
              (applyFiltersM { opts with selectFields := none } emptyQuery)))).projection =
          (stageSort opts (stageFTS opts (applyFiltersM opts emptyQuery))).projection := rfl
      rw [this, stageSort_projection]
    rw [hmain, hright]
  · intro hfts
    rw [hmain]
    have h1 : (applyFiltersM opts emptyQuery).projection = [] :=
      applyFiltersM_projection opts emptyQuery
    simp only [stageFTS, hfts]
    exact h1

/-- **C10** witness at a concrete exclusion-only selection. -/
theorem buildQuery_exclusion_only_selection_witness :
    (({ selectFields := some ["-password", "-secret"] } : NQueryOptions).selectFields =
        some ["-password", "-secret"] ∧
      (∀ f ∈ (["-password", "-secret"] : List String), strStartsWith f "-" = true)) ∧
    ((buildQuery { selectFields := some ["-password", "-secret"] }).projection =
        (buildQuery { ({ selectFields := some ["-password", "-secret"] } : NQueryOptions) with
          selectFields := none }).projection ∧
      (({ selectFields := some ["-password", "-secret"] } : NQueryOptions).fullTextSearch = none →
        (buildQuery { selectFields := some ["-password", "-secret"] }).projection = []) ∧
      (∀ sel : List String, (∀ f ∈ sel, strStartsWith f "-" = true) →
        compilePopulateSelect sel =
          if sel.contains "-_id" then [] else [("_id", PVal.one)])) :=
  ⟨⟨rfl, by decide⟩,
    buildQuery_exclusion_only_selection { selectFields := some ["-password", "-secret"] }
      ["-password", "-secret"] rfl (by decide)⟩

/-! ## Score sort precedence (C8) -/

theorem mem_alInsert_cases {α : Type} {l : List (String × α)} {k : String} {v : α}
    {p : String × α} (hp : p ∈ alInsert l k v) : p.1 = k ∨ p ∈ l := by
  induction l with
  | nil =>
    simp only [alInsert, List.mem_singleton] at hp
    left
    rw [hp]
  | cons q rest ih =>
    by_cases hq : q.1 = k
    · simp only [alInsert, hq, if_true] at hp
      rcases List.mem_cons.mp hp with h | h
      · left
        rw [h]
      · right
        exact List.mem_cons_of_mem _ h
    · simp only [alInsert, hq, if_false] at hp
      rcases List.mem_cons.mp hp with h | h
      · right
        rw [h]
        exact List.mem_cons_self _ _
      · rcases ih h with h' | h'
        · left
          exact h'
        · right
          exact List.mem_cons_of_mem _ h'

theorem sortFold_mem (l : List SortEntry) :
    ∀ (acc : List (String × SVal)) (p : String × SVal),
      p ∈ l.foldl (fun acc e => alInsert acc e.field
        (if e.order = "asc" then .num 1 else .num (-1))) acc →
      p ∈ acc ∨ p.1 ∈ l.map SortEntry.field := by
  induction l with
  | nil =>
    intro acc p h
    exact Or.inl h
  | cons e rest ih =>
    intro acc p h
    rw [List.foldl_cons] at h
    rcases ih _ _ h with h' | h'
    · rcases mem_alInsert_cases h' with h'' | h''
      · right
        rw [List.map_cons]
        exact List.mem_cons.mpr (Or.inl h'')
      · exact Or.inl h''
    · right
      rw [List.map_cons]
      exact List.mem_cons_of_mem _ h'

theorem mem_compileSortEntries_field (l : List SortEntry) (p : String × SVal)
    (hp : p ∈ compileSortEntries l) : p.1 ∈ l.map SortEntry.field := by
  rcases sortFold_mem l [] p hp with h' | h'
  · simp at h'
  · exact h'

theorem alInsert_keys_nodup {α : Type} (l : List (String × α)) (k : String) (v : α)
    (h : (l.map Prod.fst).Nodup) : ((alInsert l k v).map Prod.fst).Nodup := by
  induction l with
  | nil => simp [alInsert]
  | cons p rest ih =>
    simp only [List.map_cons, List.nodup_cons] at h
    by_cases hp : p.1 = k
    · simp only [alInsert, hp, if_true, List.map_cons, List.nodup_cons]
      refine ⟨?_, h.2⟩
      rw [← hp]
      exact h.1
    · simp only [alInsert, hp, if_false, List.map_cons, List.nodup_cons]
      refine ⟨?_, ih h.2⟩
      intro hmem
      rcases List.mem_map.mp hmem with ⟨q, hq, hq1⟩
      rcases mem_alInsert_cases hq with h' | h'
      · exact hp (hq1.symm.trans h')
      · exact h.1 (List.mem_map.mpr ⟨q, h', hq1⟩)

theorem sortFold_keys_nodup (l : List SortEntry) (acc : List (String × SVal))
    (hacc : (acc.map Prod.fst).Nodup) :
    ((l.foldl (fun acc e => alInsert acc e.field
      (if e.order = "asc" then .num 1 else .num (-1))) acc).map Prod.fst).Nodup := by
  induction l generalizing acc with
  | nil => exact hacc
  | cons e rest ih =>
    rw [List.foldl_cons]
    exact ih _ (alInsert_keys_nodup acc e.field _ hacc)

theorem compileSortEntries_keys_nodup (l : List SortEntry) :
    ((compileSortEntries l).map Prod.fst).Nodup :=
  sortFold_keys_nodup l [] (by simp)

theorem foldl_alInsert_cons {α : Type} (m : List (String × α)) (acc : List (String × α))
    (k0 : String) (v0 : α) (h : ∀ p ∈ m, p.1 ≠ k0) :
    m.foldl (fun a p => alInsert a p.1 p.2) ((k0, v0) :: acc) =
      (k0, v0) :: m.foldl (fun a p => alInsert a p.1 p.2) acc := by
  induction m generalizing acc with
  | nil => rfl
  | cons p rest ih =>
    rw [List.foldl_cons, List.foldl_cons]
    have hne : ¬ (k0 = p.1) := fun he => h p (by simp) he.symm
    have hstep : alInsert ((k0, v0) :: acc) p.1 p.2 = (k0, v0) :: alInsert acc p.1 p.2 := by
      simp [alInsert, hne]
    rw [hstep]
    exact ih _ (fun q hq => h q (List.mem_cons_of_mem _ hq))

theorem jsSpread_nil_self {α : Type} (m : List (String × α))
    (h : (m.map Prod.fst).Nodup) : jsSpread [] m = m := by
  induction m with
  | nil => rfl
  | cons p rest ih =>
    simp only [List.map_cons, List.nodup_cons] at h
    have hrest : ∀ q ∈ rest, q.1 ≠ p.1 := by
      intro q hq he
      exact h.1 (List.mem_map.mpr ⟨q, hq, he⟩)
    have hstep : jsSpread ([] : List (String × α)) (p :: rest) =
        rest.foldl (fun a q => alInsert a q.1 q.2) [(p.1, p.2)] := rfl
    rw [hstep, foldl_alInsert_cons rest [] p.1 p.2 hrest]
    rw [show rest.foldl (fun a q => alInsert a q.1 q.2) [] = jsSpread [] rest from rfl]
    rw [ih h.2]

/-- **C8** (amended): when full-text search requests `sortByScore`, the score
sort is applied *before* any explicit user sort in the assembled sort
specification (the full-text-search stage runs first and mongoose merges
subsequent sorts after it); with no explicit sort the score sort is the sole
sort. -/
theorem buildQuery_scoreSort_first (opts : NQueryOptions) (f : FTS)
    (hf : opts.fullTextSearch = some f) (hs : f.sortByScore = some true)
    (hscore : ∀ e ∈ opts.sorting.getD [], e.field ≠ "score") :
    (buildQuery opts).sortSpec =
      ("score", SVal.textScore) :: compileSortEntries (opts.sorting.getD []) ∧
    (opts.sorting.getD [] = [] → (buildQuery opts).sortSpec = [("score", SVal.textScore)]) := by
  have hfscore : (stageFTS opts (applyFiltersM opts emptyQuery)).sortSpec =
      [("score", SVal.textScore)] := by
    have h0 : (applyFiltersM opts emptyQuery).sortSpec = [] :=
      applyFiltersM_sortSpec opts emptyQuery
    simp only [stageFTS, hf, applyFullTextSearchM, hs, Option.getD_some, if_true]
    show jsSpread (qSelect (qFind _ _) _).sortSpec sortByTextScore = _
    simp [qSelect, qFind, h0, jsSpread, sortByTextScore, alInsert]
  have hmain : (buildQuery opts).sortSpec =
      (stageSort opts (stageFTS opts (applyFiltersM opts emptyQuery))).sortSpec := by
    unfold buildQuery
    rw [stagePagination_sortSpec, stagePopulate_sortSpec, stageSelect_sortSpec]
  have hsorted : (stageSort opts (stageFTS opts (applyFiltersM opts emptyQuery))).sortSpec =
      ("score", SVal.textScore) :: compileSortEntries (opts.sorting.getD []) := by
    cases hso : opts.sorting with
    | none =>
      simp only [stageSort, hso]
      rw [hfscore]
      rfl
    | some l =>
      simp only [stageSort, hso, Option.getD_some]
      by_cases hl : 0 < l.length
      · simp only [hl, if_true]
        show jsSpread (stageFTS opts (applyFiltersM opts emptyQuery)).sortSpec
          (compileSortEntries l) = _
        rw [hfscore]
        have hkeys : ∀ p ∈ compileSortEntries l, p.1 ≠ "score" := by
          intro p hp
          have hfield := mem_compileSortEntries_field l p hp
          rcases List.mem_map.mp hfield with ⟨e, he, hfe⟩
          rw [← hfe]
          exact hscore e (by simpa [hso] using he)
        show (compileSortEntries l).foldl (fun a p => alInsert a p.1 p.2)
          [("score", SVal.textScore)] = _
        have := foldl_alInsert_cons (compileSortEntries l) [] "score" SVal.textScore hkeys
        rw [this]
        congr 1
        have hnil : (compileSortEntries l).foldl (fun a p => alInsert a p.1 p.2) [] =
            jsSpread [] (compileSortEntries l) := rfl
        rw [hnil]
        exact jsSpread_nil_self (compileSortEntries l) (compileSortEntries_keys_nodup l)
      · have hl0 : l = [] := List.length_eq_zero.mp (by omega)
        simp only [hl, if_false]
        rw [hfscore, hl0]
        rfl
  constructor
  · rw [hmain, hsorted]
  · intro hempty
    rw [hmain, hsorted, hempty]
    rfl

/-- **C8** witness at a concrete score-sorted query with an explicit user sort. -/
theorem buildQuery_scoreSort_first_witness :
    (({ fullTextSearch := some ⟨"x", none, none, none, some true⟩, sorting := some [⟨"price", "asc"⟩] } : NQueryOptions).fullTextSearch = some ⟨"x", none, none, none, some true⟩ ∧
      (⟨"x", none, none, none, some true⟩ : FTS).sortByScore = some true ∧
      (∀ e ∈ (({ fullTextSearch := some ⟨"x", none, none, none, some true⟩, sorting := some [⟨"price", "asc"⟩] } : NQueryOptions).sorting.getD []), e.field ≠ "score")) ∧
    ((buildQuery { fullTextSearch := some ⟨"x", none, none, none, some true⟩, sorting := some [⟨"price", "asc"⟩] }).sortSpec =
      ("score", SVal.textScore) :: compileSortEntries (({ fullTextSearch := some ⟨"x", none, none, none, some true⟩, sorting := some [⟨"price", "asc"⟩] } : NQueryOptions).sorting.getD []) ∧
     (({ fullTextSearch := some ⟨"x", none, none, none, some true⟩, sorting := some [⟨"price", "asc"⟩] } : NQueryOptions).sorting.getD [] = [] →
      (buildQuery { fullTextSearch := some ⟨"x", none, none, none, some true⟩, sorting := some [⟨"price", "asc"⟩] }).sortSpec = [("score", SVal.textScore)])) :=
  ⟨⟨rfl, rfl, by decide⟩,
    buildQuery_scoreSort_first
      { fullTextSearch := some ⟨"x", none, none, none, some true⟩, sorting := some [⟨"price", "asc"⟩] }
      ⟨"x", none, none, none, some true⟩ rfl rfl (by decide)⟩

/-- **C8** counterexample: the assembled sort spec places the score entry
*before* the user sort entry, not after it. -/
theorem buildQuery_scoreSort_order_cex :
    (buildQuery { fullTextSearch := some ⟨"x", none, none, none, some true⟩, sorting := some [⟨"price", "asc"⟩] }).sortSpec = [("score", SVal.textScore), ("price", SVal.num 1)] ∧
    (buildQuery { fullTextSearch := some ⟨"x", none, none, none, some true⟩, sorting := some [⟨"price", "asc"⟩] }).sortSpec ≠ [("price", SVal.num 1), ("score", SVal.textScore)] := by
  refine ⟨by decide, by decide⟩

/-! ## String-form/list-form sort agreement (C9) -/

theorem parseSortItem_rendered (e : SortEntry) (hf : ':' ∉ e.field.data)
    (ho : ':' ∉ e.order.data) :
    parseSortItem (String.mk (e.field.data ++ ':' :: e.order.data)) = e := by
  unfold parseSortItem jsSplit
  rw [show (String.mk (e.field.data ++ ':' :: e.order.data)).data =
    e.field.data ++ ':' :: e.order.data from rfl]
  rw [splitChars_append _ _ _ hf, splitChars_of_not_mem _ _ ho]
  show (⟨String.mk e.field.data, String.mk e.order.data⟩ : SortEntry) = e
  rw [show String.mk e.field.data = e.field from rfl,
    show String.mk e.order.data = e.order from rfl]

/-- **C9**: parsing the string rendering of a sort spec yields the same
normalized sort list as the structured record form, for every spec
expressible in both grammars. -/
theorem sortString_roundtrip (l : List SortEntry) (hne : l ≠ [])
    (h : ∀ e ∈ l, ',' ∉ e.field.data ∧ ':' ∉ e.field.data ∧
      (e.order = "asc" ∨ e.order = "desc")) :
    parseSorting (.str (renderSort l)) = parseSorting (.records l) := by
  have hparts_ne : (l.map fun e => e.field.data ++ ':' :: e.order.data) ≠ [] := by
    intro hmapnil
    exact hne (List.map_eq_nil_iff.mp hmapnil)
  have hparts_free : ∀ p ∈ l.map (fun e => e.field.data ++ ':' :: e.order.data), ',' ∉ p := by
    intro part hpart
    rcases List.mem_map.mp hpart with ⟨e, he, hpe⟩
    rw [← hpe]
    intro hmem
    rcases List.mem_append.mp hmem with h1 | h1
    · exact (h e he).1 h1
    · rcases List.mem_cons.mp h1 with h2 | h2
      · exact absurd h2 (by decide)
      · rcases (h e he).2.2 with ho | ho <;> rw [ho] at h2 <;> revert h2 <;> decide
  show (jsSplit ',' (renderSort l)).map parseSortItem = l
  unfold jsSplit renderSort
  rw [show (String.mk (joinChars ',' (l.map fun e => e.field.data ++ ':' :: e.order.data))).data =
    joinChars ',' (l.map fun e => e.field.data ++ ':' :: e.order.data) from rfl]
  rw [splitChars_joinChars ',' _ hparts_ne hparts_free]
  rw [List.map_map, List.map_map]
  have hitem : ∀ e ∈ l,
      ((parseSortItem ∘ String.mk) ∘ fun e => e.field.data ++ ':' :: e.order.data) e = id e := by
    intro e he
    show parseSortItem (String.mk (e.field.data ++ ':' :: e.order.data)) = e
    apply parseSortItem_rendered
    · exact (h e he).2.1
    · rcases (h e he).2.2 with ho | ho <;> rw [ho] <;> decide
  rw [List.map_congr_left hitem, List.map_id]

/-- **C9** witness at the spec's example `"price:desc,name:asc"`. -/
theorem sortString_roundtrip_witness :
    (([⟨"price", "desc"⟩, ⟨"name", "asc"⟩] : List SortEntry) ≠ [] ∧
      (∀ e ∈ ([⟨"price", "desc"⟩, ⟨"name", "asc"⟩] : List SortEntry),
        ',' ∉ e.field.data ∧ ':' ∉ e.field.data ∧ (e.order = "asc" ∨ e.order = "desc"))) ∧
    parseSorting (.str (renderSort [⟨"price", "desc"⟩, ⟨"name", "asc"⟩])) =
      parseSorting (.records [⟨"price", "desc"⟩, ⟨"name", "asc"⟩]) :=
  ⟨⟨by decide, by decide⟩,
    sortString_roundtrip [⟨"price", "desc"⟩, ⟨"name", "asc"⟩] (by decide) (by decide)⟩

/-! ## Sort-direction validation (C7) -/

theorem middlewareSortItem_valid {item : String} {e : SortEntry}
    (h : middlewareSortItem item = some e) :
    e.order = "asc" ∨ e.order = "desc" := by
  simp only [middlewareSortItem] at h
  split at h
  case isTrue hc =>
    obtain rfl := Option.some.inj h
    simpa using hc
  case isFalse hc =>
    exact absurd h (by simp)

theorem middlewareSortItem_noColon (item : String) (hi : ':' ∉ item.data) :
    middlewareSortItem item = some ⟨jsTrim item, "asc"⟩ := by
  have hsplit : jsSplit ':' item = [item] := by
    unfold jsSplit
    rw [splitChars_of_not_mem _ _ hi]
    rfl
  simp only [middlewareSortItem, hsplit]
  rw [show (([item] : List String).get? 1).getD "asc" = "asc" from rfl]
  rw [if_pos (by decide : jsToLower "asc" = "asc" ∨ jsToLower "asc" = "desc")]
  rfl

theorem middlewareParseSort_eq (s : String) : middlewareParseSort s = mwSortSpec s := by
  unfold middlewareParseSort mwSortSpec
  by_cases hc : s.data.contains ',' = true
  · rw [if_pos hc]
    by_cases he : ((jsSplit ',' s).filterMap middlewareSortItem).isEmpty = true
    · have hnil : (jsSplit ',' s).filterMap middlewareSortItem = [] := by
        simpa using he
      rw [if_neg (by rw [hnil]; simp), if_pos he]
    · have hne : (jsSplit ',' s).filterMap middlewareSortItem ≠ [] := by
        simpa using he
      rw [if_pos (List.length_pos.mpr hne), if_neg he]
  · have hcf : s.data.contains ',' = false := by
      revert hc
      cases s.data.contains ',' <;> simp
    have hnm : ',' ∉ s.data := by simpa using hcf
    have hsplit : jsSplit ',' s = [s] := by
      unfold jsSplit
      rw [splitChars_of_not_mem _ _ hnm]
      rfl
    rw [if_neg hc, hsplit]
    cases hitem : middlewareSortItem s with
    | some e => simp [hitem]
    | none => simp [hitem]

/-- **C7** (amended): direction validation lives in the middleware adapter,
not the core: the middleware defaults a missing direction to ascending,
lowercases direction tokens and drops entries whose token is not
`asc`/`desc` (leaving the sort unset when nothing survives), while the core
`parseSorting` performs no validation at all — record-shaped sort lists pass
through verbatim, whatever their direction tokens. -/
theorem sort_direction_handling :
    (∀ s : String, middlewareParseSort s = mwSortSpec s) ∧
    (∀ (s : String) (l : List SortEntry), middlewareParseSort s = some l →
      ∀ e ∈ l, e.order = "asc" ∨ e.order = "desc") ∧
    (∀ item : String, ':' ∉ item.data → middlewareSortItem item = some ⟨jsTrim item, "asc"⟩) ∧
    (∀ l : List SortEntry, parseSorting (.records l) = l) := by
  refine ⟨middlewareParseSort_eq, ?_, middlewareSortItem_noColon, fun l => rfl⟩
  intro s l hl e he
  rw [middlewareParseSort_eq s] at hl
  unfold mwSortSpec at hl
  split at hl
  · exact absurd hl (by simp)
  · have hleq : l = (jsSplit ',' s).filterMap middlewareSortItem := (Option.some.inj hl).symm
    rw [hleq] at he
    rcases List.mem_filterMap.mp he with ⟨a, _, ha⟩
    exact middlewareSortItem_valid ha

/-- **C7** counterexample: the core sort normalizer keeps an entry whose
direction token is unrecognized, passing the token through unchanged instead
of dropping the entry. -/
theorem parseSorting_unrecognized_direction_cex :
    parseSorting (.str "price:bogus") = [⟨"price", "bogus"⟩] ∧
    (⟨"price", "bogus"⟩ : SortEntry) ∈ parseSorting (.str "price:bogus") ∧
    ("bogus" : String) ≠ "asc" ∧ ("bogus" : String) ≠ "desc" := by
  refine ⟨by decide, by decide, by decide, by decide⟩

/-! ## The `between` convenience (C6) -/

theorem append_gte_ne_lte (f : String) : f ++ "_gte" ≠ f ++ "_lte" := by
  intro he
  have hd : (f ++ "_gte").data = (f ++ "_lte").data := by rw [he]
  rw [show (f ++ "_gte").data = f.data ++ "_gte".data from rfl,
      show (f ++ "_lte").data = f.data ++ "_lte".data from rfl] at hd
  have h2 := List.append_cancel_left hd
  simp at h2

/-- **C6** (amended): a `field_between` filter expands only when the value is
a comma string whose first two components are numeric; the `gte` bound takes
the first component and the `lte` bound the second, in input order with no
numeric reordering, and every non-string `between` value is dropped
silently. -/
theorem parseFilters_between (key f s s0 s1 : String) (rest : List String)
    (m n : Int)
    (hkey : jsSplit '_' key = [f, "between"])
    (hsplit : jsSplit ',' s = s0 :: s1 :: rest)
    (hm : parseJsNum s0 = some m) (hn : parseJsNum s1 = some n) :
    parseFilters [(key, .vStr s)] = [(f ++ "_gte", .vNum m), (f ++ "_lte", .vNum n)] ∧
    (∀ v : Value, v.isStr = false → parseFilters [(key, v)] = []) := by
  have hc : '_' ∈ key.data := by
    by_contra hnm
    rw [show jsSplit '_' key = (splitChars '_' key.data).map String.mk from rfl,
      splitChars_of_not_mem _ _ hnm] at hkey
    simp at hkey
  constructor
  · show parseFiltersStep [] (key, Value.vStr s) = _
    unfold parseFiltersStep
    rw [if_pos hc, hkey]
    simp only [List.get?, Option.getD, List.headD]
    rw [hsplit, List.map_cons, List.map_cons, hm, hn]
    simp only [List.get?, Option.getD]
    simp [alInsert, append_gte_ne_lte f]
  · intro v hv
    show parseFiltersStep [] (key, v) = []
    unfold parseFiltersStep
    rw [if_pos hc, hkey]
    simp only [List.get?, Option.getD, List.headD]
    cases v with
    | vStr s2 => simp [Value.isStr] at hv
    | vNum a => rfl
    | vBool b => rfl
    | vNull => rfl
    | vArr a => rfl

/-- **C6** witness at `price_between = "100,500"`. -/
theorem parseFilters_between_witness :
    (jsSplit '_' "price_between" = ["price", "between"] ∧
      jsSplit ',' "100,500" = "100" :: "500" :: [] ∧
      parseJsNum "100" = some 100 ∧ parseJsNum "500" = some 500) ∧
    (parseFilters [("price_between", .vStr "100,500")] =
        [("price" ++ "_gte", .vNum 100), ("price" ++ "_lte", .vNum 500)] ∧
      (∀ v : Value, v.isStr = false → parseFilters [("price_between", v)] = [])) :=
  ⟨⟨by decide, by decide, by decide, by decide⟩,
    parseFilters_between "price_between" "price" "100,500" "100" "500" [] 100 500
      (by decide) (by decide) (by decide) (by decide)⟩

/-- **C6** counterexample: `between` takes its bounds in input order, not by
numeric comparison (the `gte` bound of `"10,5"` is `10`, not the minimum `5`),
and a two-element list value is dropped entirely instead of expanding. -/
theorem parseFilters_between_cex :
    parseFilters [("price_between", .vStr "10,5")] =
      [("price_gte", .vNum 10), ("price_lte", .vNum 5)] ∧
    alLookup (parseFilters [("price_between", .vStr "10,5")]) "price_gte" ≠
      some (.vNum 5) ∧
    parseFilters [("price_between", .vArr [.vNum 10, .vNum 5])] = [] := by
  refine ⟨by decide, by decide, by decide⟩

/-! ## Unrecognized operator suffixes (C3) -/

/-- **C3** (amended): a `field_suffix` key whose suffix is not a recognized
operator is kept whole (no operator split) by the filter value parser
`parseFilters`, but the filter compiler `buildFilterQuery` silently drops it,
so the clause never reaches the compiled filter. -/
theorem unknown_suffix_kept_then_dropped (key p0 p1 : String) (rest : List String)
    (v : Value)
    (hkey : jsSplit '_' key = p0 :: p1 :: rest)
    (hmap : mapOperatorToMongoOperator p1 = none)
    (hbet : p1 ≠ "between") :
    parseFilters [(key, v)] = [(key, v)] ∧
    buildFilterQuery [(key, v)] = ⟨[], []⟩ := by
  have hc : '_' ∈ key.data := by
    by_contra hnm
    rw [show jsSplit '_' key = (splitChars '_' key.data).map String.mk from rfl,
      splitChars_of_not_mem _ _ hnm] at hkey
    simp at hkey
  have hop : ∀ w : String, mapOperatorToMongoOperator w ≠ none → p1 ≠ w := by
    intro w hw he
    rw [he] at hmap
    exact hw hmap
  have h1 := hop "in" (by decide)
  have h2 := hop "nin" (by decide)
  have h3 := hop "all" (by decide)
  have h4 := hop "exists" (by decide)
  have h5 := hop "gt" (by decide)
  have h6 := hop "gte" (by decide)
  have h7 := hop "lt" (by decide)
  have h8 := hop "lte" (by decide)
  have h9 := hop "regex" (by decide)
  constructor
  · show parseFiltersStep [] (key, v) = _
    unfold parseFiltersStep
    rw [if_pos hc, hkey]
    simp only [List.get?, Option.getD, List.headD]
    rfl
  · have hstep : buildFilterQueryStep [] (key, v) = [] := by
      unfold buildFilterQueryStep
      rw [if_pos hc, hkey]
      simp only [List.get?, Option.getD, List.headD]
      rw [hmap]
    show (⟨([(key, v)] : List (String × Value)).foldl buildFilterQueryStep [], []⟩ : FilterQuery) =
      ⟨[], []⟩
    rw [show ([(key, v)] : List (String × Value)).foldl buildFilterQueryStep [] =
      buildFilterQueryStep [] (key, v) from rfl, hstep]

/-- **C3** witness at the key `created_at` (`at` is not a recognized operator). -/
theorem unknown_suffix_kept_then_dropped_witness :
    (jsSplit '_' "created_at" = "created" :: "at" :: [] ∧
      mapOperatorToMongoOperator "at" = none ∧ ("at" : String) ≠ "between") ∧
    (parseFilters [("created_at", .vStr "2020")] = [("created_at", .vStr "2020")] ∧
      buildFilterQuery [("created_at", .vStr "2020")] = ⟨[], []⟩) :=
  ⟨⟨by decide, by decide, by decide⟩,
    unknown_suffix_kept_then_dropped "created_at" "created" "at" [] (.vStr "2020")
      (by decide) (by decide) (by decide)⟩

/-- **C3** counterexample: a `created_at` filter produces no clause at all in
the compiled filter — it is dropped, not preserved as an equality on the
literal key — and the assembled query carries no filter condition. -/
theorem buildFilterQuery_drops_unknown_suffix_cex :
    buildFilterQuery [("created_at", .vStr "2020")] = ⟨[], []⟩ ∧
    alLookup (buildFilterQuery [("created_at", .vStr "2020")]).fields "created_at" = none ∧
    (buildQuery (normalizeOptions { filters := some [("created_at", .vStr "2020")] })).conds = [] := by
  refine ⟨by decide, by decide, by decide⟩

/-! ## Merge behaviour at a shared field (C2) -/

/-- **C2** (amended): for filter sets that bind no literal `$and` field key
(on which the two-component `FilterQuery` agrees with the source's
single-object merge, by `mergeJs_simulates`), a field bound in both sets is
merged as claimed only when the default clause is truthy: a simple clause on
either side sends both clauses verbatim into the `$and` list and removes the
direct entry, and two operator maps are shallow-merged with the user side
winning per operator key; but a falsy default clause (`false`, `0`, `""`,
`null`) is simply overwritten by the user clause.  (A user key literally
named `$and` instead collides with the conjunct accumulator, which the
source pushes onto and then deletes: see the counterexample.) -/
theorem mergeFilterQueries_field_cases (d u : FilterQuery) (f : String) (dc uc : Clause)
    (hund : (u.fields.map Prod.fst).Nodup)
    (hucnd : ((clauseToObj uc).map Prod.fst).Nodup)
    (_hdand : alLookup d.fields "$and" = none)
    (_huand : ∀ p ∈ u.fields, p.1 ≠ "$and")
    (_hdal : d.andList = [])
    (_hual : u.andList = [])
    (hd : alLookup d.fields f = some dc)
    (hu : alLookup u.fields f = some uc) :
    (truthyClause dc = true →
      ((isSimpleJS dc || isSimpleJS uc) = true →
        alLookup (mergeFilterQueries d u).fields f = none ∧
        (f, dc) ∈ (mergeFilterQueries d u).andList ∧
        (f, uc) ∈ (mergeFilterQueries d u).andList) ∧
      ((isSimpleJS dc || isSimpleJS uc) = false →
        alLookup (mergeFilterQueries d u).fields f =
          some (.opmap (jsSpread (clauseToObj dc) (clauseToObj uc))) ∧
        ∀ k : String, alLookup (jsSpread (clauseToObj dc) (clauseToObj uc)) k =
          ((alLookup (clauseToObj uc) k).orElse (fun _ => alLookup (clauseToObj dc) k)))) ∧
    (truthyClause dc = false →
      alLookup (mergeFilterQueries d u).fields f = some uc) := by
  have hmemu : (f, uc) ∈ u.fields := alLookup_mem hu
  have H := mergeFold_lookup_mem u.fields d f dc uc hund hmemu hd
  constructor
  · intro htruthy
    constructor
    · intro hsimple
      exact (H.1 htruthy).1 hsimple
    · intro hsimple
      refine ⟨(H.1 htruthy).2 hsimple, fun k => ?_⟩
      exact alLookup_jsSpread (clauseToObj dc) (clauseToObj uc) k hucnd
  · intro htruthy
    exact H.2 htruthy

/-- **C2** witness: a default range `{$gte: 50, $lte: 500}` merged with a user
`{$gte: 100}` keeps the default `$lte` and lets the user `$gte` win. -/
theorem mergeFilterQueries_field_cases_witness :
    (((⟨[("price", Clause.opmap [("$gte", Value.vNum 100)])], []⟩ : FilterQuery).fields.map Prod.fst).Nodup ∧
      ((clauseToObj (Clause.opmap [("$gte", Value.vNum 100)])).map Prod.fst).Nodup ∧
      alLookup (⟨[("price", Clause.opmap [("$gte", Value.vNum 50), ("$lte", Value.vNum 500)])], []⟩ : FilterQuery).fields "price" =
        some (Clause.opmap [("$gte", Value.vNum 50), ("$lte", Value.vNum 500)]) ∧
      alLookup (⟨[("price", Clause.opmap [("$gte", Value.vNum 100)])], []⟩ : FilterQuery).fields "price" =
        some (Clause.opmap [("$gte", Value.vNum 100)]) ∧
      alLookup (⟨[("price", Clause.opmap [("$gte", Value.vNum 50), ("$lte", Value.vNum 500)])], []⟩ : FilterQuery).fields "$and" = none ∧
      (∀ p ∈ (⟨[("price", Clause.opmap [("$gte", Value.vNum 100)])], []⟩ : FilterQuery).fields, p.1 ≠ "$and") ∧
      (⟨[("price", Clause.opmap [("$gte", Value.vNum 50), ("$lte", Value.vNum 500)])], []⟩ : FilterQuery).andList = [] ∧
      (⟨[("price", Clause.opmap [("$gte", Value.vNum 100)])], []⟩ : FilterQuery).andList = []) ∧
    ((truthyClause (Clause.opmap [("$gte", Value.vNum 50), ("$lte", Value.vNum 500)]) = true →
      ((isSimpleJS (Clause.opmap [("$gte", Value.vNum 50), ("$lte", Value.vNum 500)]) ||
          isSimpleJS (Clause.opmap [("$gte", Value.vNum 100)])) = true →
        alLookup (mergeFilterQueries ⟨[("price", Clause.opmap [("$gte", Value.vNum 50), ("$lte", Value.vNum 500)])], []⟩
            ⟨[("price", Clause.opmap [("$gte", Value.vNum 100)])], []⟩).fields "price" = none ∧
        ("price", Clause.opmap [("$gte", Value.vNum 50), ("$lte", Value.vNum 500)]) ∈
          (mergeFilterQueries ⟨[("price", Clause.opmap [("$gte", Value.vNum 50), ("$lte", Value.vNum 500)])], []⟩
            ⟨[("price", Clause.opmap [("$gte", Value.vNum 100)])], []⟩).andList ∧
        ("price", Clause.opmap [("$gte", Value.vNum 100)]) ∈
          (mergeFilterQueries ⟨[("price", Clause.opmap [("$gte", Value.vNum 50), ("$lte", Value.vNum 500)])], []⟩
            ⟨[("price", Clause.opmap [("$gte", Value.vNum 100)])], []⟩).andList) ∧
      ((isSimpleJS (Clause.opmap [("$gte", Value.vNum 50), ("$lte", Value.vNum 500)]) ||
          isSimpleJS (Clause.opmap [("$gte", Value.vNum 100)])) = false →
        alLookup (mergeFilterQueries ⟨[("price", Clause.opmap [("$gte", Value.vNum 50), ("$lte", Value.vNum 500)])], []⟩
            ⟨[("price", Clause.opmap [("$gte", Value.vNum 100)])], []⟩).fields "price" =
          some (.opmap (jsSpread (clauseToObj (Clause.opmap [("$gte", Value.vNum 50), ("$lte", Value.vNum 500)]))
            (clauseToObj (Clause.opmap [("$gte", Value.vNum 100)])))) ∧
        ∀ k : String, alLookup (jsSpread (clauseToObj (Clause.opmap [("$gte", Value.vNum 50), ("$lte", Value.vNum 500)]))
            (clauseToObj (Clause.opmap [("$gte", Value.vNum 100)]))) k =
          ((alLookup (clauseToObj (Clause.opmap [("$gte", Value.vNum 100)])) k).orElse
            (fun _ => alLookup (clauseToObj (Clause.opmap [("$gte", Value.vNum 50), ("$lte", Value.vNum 500)])) k)))) ∧
    (truthyClause (Clause.opmap [("$gte", Value.vNum 50), ("$lte", Value.vNum 500)]) = false →
      alLookup (mergeFilterQueries ⟨[("price", Clause.opmap [("$gte", Value.vNum 50), ("$lte", Value.vNum 500)])], []⟩
          ⟨[("price", Clause.opmap [("$gte", Value.vNum 100)])], []⟩).fields "price" =
        some (Clause.opmap [("$gte", Value.vNum 100)]))) :=
  ⟨⟨by decide, by decide, by decide, by decide, by decide, by decide, by decide, by decide⟩,
    mergeFilterQueries_field_cases
      ⟨[("price", Clause.opmap [("$gte", Value.vNum 50), ("$lte", Value.vNum 500)])], []⟩
      ⟨[("price", Clause.opmap [("$gte", Value.vNum 100)])], []⟩
      "price" (Clause.opmap [("$gte", Value.vNum 50), ("$lte", Value.vNum 500)])
      (Clause.opmap [("$gte", Value.vNum 100)])
      (by decide) (by decide) (by decide) (by decide) (by decide) (by decide)
      (by decide) (by decide)⟩

/-- **C2** counterexample: a falsy default clause (`isActive: false`) shared
with a user clause is overwritten — neither clause reaches the `$and` list
and the field entry remains, contrary to the claim for fields present in
both.  And when the user side carries a literal `$and` key, the
single-object merge of the source annihilates even a truthy shared field:
with default `{qty: 1}` and user `{qty: 2, $and: "x"}` the conflict on `qty`
pushes both clauses onto `mergedQuery.$and` and the `$and` entry of the loop
then deletes that very key, leaving the empty object — neither clause
survives anywhere. -/
theorem mergeFilterQueries_falsy_default_cex :
    (mergeFilterQueries ⟨[("isActive", .simple (.vBool false))], []⟩
        ⟨[("isActive", .simple (.vBool true))], []⟩ =
      ⟨[("isActive", .simple (.vBool true))], []⟩ ∧
    ("isActive", Clause.simple (.vBool false)) ∉
      (mergeFilterQueries ⟨[("isActive", .simple (.vBool false))], []⟩
        ⟨[("isActive", .simple (.vBool true))], []⟩).andList ∧
    alLookup (mergeFilterQueries ⟨[("isActive", .simple (.vBool false))], []⟩
        ⟨[("isActive", .simple (.vBool true))], []⟩).fields "isActive" ≠ none) ∧
    (mergeFilterQueriesJs [("qty", .vnum 1)]
        [("qty", .vnum 2), ("$and", .vstr "x")] = some [] ∧
      truthyJs (.vnum 1) = true ∧ isSimpleJsV (.vnum 1) = true) := by
  refine ⟨⟨by decide, by decide, by decide⟩, by decide, by decide, by decide⟩

/-! ## Default-filter enforcement (C1) -/

theorem alLookup_of_mem_nodup {α : Type} {l : List (String × α)}
    (hnd : (l.map Prod.fst).Nodup) {p : String × α} (hp : p ∈ l) :
    alLookup l p.1 = some p.2 := by
  induction l with
  | nil => simp at hp
  | cons q rest ih =>
    simp only [List.map_cons, List.nodup_cons] at hnd
    rcases List.mem_cons.mp hp with h | h
    · rw [h]
      simp [alLookup]
    · have hne : ¬ (q.1 = p.1) := by
        intro he
        exact hnd.1 (List.mem_map.mpr ⟨p, h, he.symm⟩)
      simp only [alLookup, hne, if_false]
      exact ih hnd.2 h

/-- **C1** (amended): for filter sets that bind no literal `$and` field key
(on which the two-component `FilterQuery` agrees with the source's
single-object merge, by `mergeJs_simulates`), provided every compiled
default clause is truthy, a record matching the merged filter satisfies
every default clause — in full when the user side has no clause on the field
or either side is simple (the `$and` path), and operator-entry-wise on the
keys the user's operator map does not override when both sides are operator
maps.  (A falsy default clause, by contrast, is overwritten; and a user key
literally named `$and` collides with the conjunct accumulator, which the
source pushes onto and then deletes, discarding even truthy defaults: see
the counterexample.)  The statement is parametric in the interpretation of
equality and of the operators, so it holds for every semantics of the
MongoDB operators. -/
theorem mergeFilterQueries_enforces_defaults
    (opSem : String → Option Value → Value → Bool)
    (eqSem : Option Value → Value → Bool)
    (doc : String → Option Value) (d u : FilterQuery)
    (hdnd : (d.fields.map Prod.fst).Nodup)
    (hund : (u.fields.map Prod.fst).Nodup)
    (_hdand : alLookup d.fields "$and" = none)
    (_huand : ∀ p ∈ u.fields, p.1 ≠ "$and")
    (_hdal : d.andList = [])
    (_hual : u.andList = [])
    (htruthy : ∀ p ∈ d.fields, truthyClause p.2 = true)
    (hm : satisfiesFilter opSem eqSem doc (mergeFilterQueries d u) = true) :
    ∀ p ∈ d.fields,
      (alLookup u.fields p.1 = none →
        satisfiesClause opSem eqSem (doc p.1) p.2 = true) ∧
      (∀ uc : Clause, alLookup u.fields p.1 = some uc →
        (isSimpleJS p.2 || isSimpleJS uc) = true →
        satisfiesClause opSem eqSem (doc p.1) p.2 = true) ∧
      (∀ uc : Clause, alLookup u.fields p.1 = some uc →
        (isSimpleJS p.2 || isSimpleJS uc) = false →
        ∀ kv ∈ clauseToObj p.2, alLookup (clauseToObj uc) kv.1 = none →
          opSem kv.1 (doc p.1) kv.2 = true) := by
  intro p hp
  have hd : alLookup d.fields p.1 = some p.2 := alLookup_of_mem_nodup hdnd hp
  have hm' := hm
  unfold satisfiesFilter at hm'
  rw [Bool.and_eq_true] at hm'
  have hmf : ∀ x ∈ (mergeFilterQueries d u).fields,
      satisfiesClause opSem eqSem (doc x.1) x.2 = true := fun x hx =>
    (List.all_eq_true.mp hm'.1) x hx
  have hma : ∀ x ∈ (mergeFilterQueries d u).andList,
      satisfiesClause opSem eqSem (doc x.1) x.2 = true := fun x hx =>
    (List.all_eq_true.mp hm'.2) x hx
  have ht := htruthy p hp
  refine ⟨?_, ?_, ?_⟩
  · intro hu
    have hnotmem : p.1 ∉ u.fields.map Prod.fst := (alLookup_eq_none_iff _ _).mp hu
    have hlook : alLookup (mergeFilterQueries d u).fields p.1 = some p.2 := by
      show alLookup (u.fields.foldl mergeStep d).fields p.1 = some p.2
      rw [mergeFold_lookup_notmem u.fields d p.1 hnotmem, hd]
    exact hmf (p.1, p.2) (alLookup_mem hlook)
  · intro uc hu hs
    have hmemu : (p.1, uc) ∈ u.fields := alLookup_mem hu
    have H := mergeFold_lookup_mem u.fields d p.1 p.2 uc hund hmemu hd
    have hAnd := (H.1 ht).1 hs
    exact hma (p.1, p.2) hAnd.2.1
  · intro uc hu hs kv hkv hnone
    have hmemu : (p.1, uc) ∈ u.fields := alLookup_mem hu
    have H := mergeFold_lookup_mem u.fields d p.1 p.2 uc hund hmemu hd
    have hspread := (H.1 ht).2 hs
    have hsat := hmf (p.1, .opmap (jsSpread (clauseToObj p.2) (clauseToObj uc)))
      (alLookup_mem hspread)
    unfold satisfiesClause at hsat
    have hmem : kv ∈ jsSpread (clauseToObj p.2) (clauseToObj uc) :=
      mem_jsSpread_left _ hkv hnone
    exact (List.all_eq_true.mp hsat) kv hmem

/-- **C1** witness: a trusted status equality plus a default price cap merged
with a user lower bound; the matching record satisfies both default clauses,
the `$lte` cap entry-wise since the user map does not override it. -/
theorem mergeFilterQueries_enforces_defaults_witness :
    (((⟨[("status", Clause.simple (.vStr "published")), ("price", Clause.opmap [("$lte", Value.vNum 500)])], []⟩ : FilterQuery).fields.map Prod.fst).Nodup ∧
      ((⟨[("price", Clause.opmap [("$gte", Value.vNum 100)])], []⟩ : FilterQuery).fields.map Prod.fst).Nodup ∧
      alLookup (⟨[("status", Clause.simple (.vStr "published")), ("price", Clause.opmap [("$lte", Value.vNum 500)])], []⟩ : FilterQuery).fields "$and" = none ∧
      (∀ p ∈ (⟨[("price", Clause.opmap [("$gte", Value.vNum 100)])], []⟩ : FilterQuery).fields, p.1 ≠ "$and") ∧
      (⟨[("status", Clause.simple (.vStr "published")), ("price", Clause.opmap [("$lte", Value.vNum 500)])], []⟩ : FilterQuery).andList = [] ∧
      (⟨[("price", Clause.opmap [("$gte", Value.vNum 100)])], []⟩ : FilterQuery).andList = [] ∧
      (∀ p ∈ (⟨[("status", Clause.simple (.vStr "published")), ("price", Clause.opmap [("$lte", Value.vNum 500)])], []⟩ : FilterQuery).fields, truthyClause p.2 = true) ∧
      satisfiesFilter stdOpSem stdEqSem
        (fun s => if s = "status" then some (.vStr "published") else if s = "price" then some (.vNum 200) else none)
        (mergeFilterQueries
          ⟨[("status", Clause.simple (.vStr "published")), ("price", Clause.opmap [("$lte", Value.vNum 500)])], []⟩
          ⟨[("price", Clause.opmap [("$gte", Value.vNum 100)])], []⟩) = true) ∧
    (∀ p ∈ (⟨[("status", Clause.simple (.vStr "published")), ("price", Clause.opmap [("$lte", Value.vNum 500)])], []⟩ : FilterQuery).fields,
      (alLookup (⟨[("price", Clause.opmap [("$gte", Value.vNum 100)])], []⟩ : FilterQuery).fields p.1 = none →
        satisfiesClause stdOpSem stdEqSem
          ((fun s => if s = "status" then some (.vStr "published") else if s = "price" then some (.vNum 200) else none) p.1) p.2 = true) ∧
      (∀ uc : Clause, alLookup (⟨[("price", Clause.opmap [("$gte", Value.vNum 100)])], []⟩ : FilterQuery).fields p.1 = some uc →
        (isSimpleJS p.2 || isSimpleJS uc) = true →
        satisfiesClause stdOpSem stdEqSem
          ((fun s => if s = "status" then some (.vStr "published") else if s = "price" then some (.vNum 200) else none) p.1) p.2 = true) ∧
      (∀ uc : Clause, alLookup (⟨[("price", Clause.opmap [("$gte", Value.vNum 100)])], []⟩ : FilterQuery).fields p.1 = some uc →
        (isSimpleJS p.2 || isSimpleJS uc) = false →
        ∀ kv ∈ clauseToObj p.2, alLookup (clauseToObj uc) kv.1 = none →
          stdOpSem kv.1 ((fun s => if s = "status" then some (.vStr "published") else if s = "price" then some (.vNum 200) else none) p.1) kv.2 = true)) :=
  ⟨⟨by decide, by decide, by decide, by decide, by decide, by decide, by decide, by decide⟩,
    mergeFilterQueries_enforces_defaults stdOpSem stdEqSem
      (fun s => if s = "status" then some (.vStr "published") else if s = "price" then some (.vNum 200) else none)
      ⟨[("status", Clause.simple (.vStr "published")), ("price", Clause.opmap [("$lte", Value.vNum 500)])], []⟩
      ⟨[("price", Clause.opmap [("$gte", Value.vNum 100)])], []⟩
      (by decide) (by decide) (by decide) (by decide) (by decide) (by decide)
      (by decide) (by decide)⟩

/-- **C1** counterexample: with a falsy default clause (`isActive: false`),
a record that violates the default still matches the merged filter — the
user filter removed the default constraint wholesale, not at an operator
key.  And a truthy default is not enforced either when the user filter
carries a literal `$and` key: on default `{status: "a"}` and user
`{status: "b", $and: "x"}` the source's single-object merge pushes both
status clauses onto `mergedQuery.$and` and then, at the `$and` entry of the
loop, deletes that very key — the merge returns the empty object, which
every record matches. -/
theorem mergeFilterQueries_enforces_defaults_cex :
    (satisfiesFilter stdOpSem stdEqSem
      (fun s => if s = "isActive" then some (Value.vBool true) else none)
      (mergeFilterQueries ⟨[("isActive", .simple (.vBool false))], []⟩
        ⟨[("isActive", .simple (.vBool true))], []⟩) = true ∧
    satisfiesClause stdOpSem stdEqSem
      ((fun s => if s = "isActive" then some (Value.vBool true) else none) "isActive")
      (Clause.simple (.vBool false)) = false ∧
    ("isActive", Clause.simple (.vBool false)) ∈
      (⟨[("isActive", Clause.simple (.vBool false))], []⟩ : FilterQuery).fields) ∧
    (mergeFilterQueriesJs [("status", .vstr "a")]
        [("status", .vstr "b"), ("$and", .vstr "x")] = some [] ∧
      truthyJs (.vstr "a") = true) := by
  refine ⟨⟨by decide, by decide, by decide⟩, by decide, by decide⟩

end MQB
